import Mathlib

/-!
Verification development for the md-replay market-data replay system.

Shallow embedding of the Rust sources:
  crates/core/src/event.rs, crates/core/src/tick.rs,
  crates/ingest/src/csv.rs, crates/ingest/src/itch.rs,
  crates/ingest/src/pcap_ingest.rs,
  crates/storage/src/eventlog.rs, crates/storage/src/index.rs,
  crates/replay/src/engine.rs, crates/replay/src/grpc.rs.

Machine integers are modelled as Nat/Int with explicit range checks where
the code performs them; byte streams are lists of Nat (each < 256 at use
sites); Rust String values are Lean String values, compared by the
code-point lexicographic order (equal to the byte lexicographic order Rust
uses, since Rust strings are valid UTF-8).
-/

/-! ## Ordering helpers

Rust integer and string comparisons, mirrored as executable comparators.
`natCmp` is `u64::cmp`; `listNatCmp` is the lexicographic comparison of
byte sequences, which is exactly `str::cmp` on the UTF-8 bytes. -/

def natCmp (m n : Nat) : Ordering :=
  if m < n then .lt else if n < m then .gt else .eq

def listNatCmp : List Nat → List Nat → Ordering
  | [], [] => .eq
  | [], _ :: _ => .lt
  | _ :: _, [] => .gt
  | a :: as, b :: bs =>
    match natCmp a b with
    | .eq => listNatCmp as bs
    | o => o

/-- The code-point sequence of a string; on valid UTF-8 the induced
lexicographic order coincides with Rust byte-wise string order. -/
def strBytes (s : String) : List Nat :=
  s.data.map Char.toNat

def strCmp (a b : String) : Ordering :=
  listNatCmp (strBytes a) (strBytes b)

/-! ## Core event model (crates/core/src/event.rs) -/

inductive EventType
  | trade
  | quote
  deriving DecidableEq, Repr

inductive Payload
  | trade (price_ticks : Int) (size : Int)
  | quote (bid_px : Int) (bid_sz : Int) (ask_px : Int) (ask_sz : Int)
  deriving DecidableEq, Repr

structure Event where
  timestamp_ns : Nat
  sequence : Nat
  venue : String
  symbol : String
  event_type : EventType
  payload : Payload
  deriving DecidableEq, Repr

structure PendingEvent where
  timestamp_ns : Nat
  venue : String
  symbol : String
  payload : Payload
  ingest_order : Nat
  deriving DecidableEq, Repr

/-- The tag of a payload, as `PendingEvent::into_event` derives it. -/
def payloadTag : Payload → EventType
  | .trade _ _ => .trade
  | .quote _ _ _ _ => .quote

def PendingEvent.into_event (p : PendingEvent) (sequence : Nat) : Event :=
  { timestamp_ns := p.timestamp_ns
    sequence := sequence
    venue := p.venue
    symbol := p.symbol
    event_type := payloadTag p.payload
    payload := p.payload }

/-- The comparator of `assign_sequences`:
`a.timestamp_ns.cmp(b).then_with(ingest_order).then_with(symbol).then_with(venue)`. -/
def pendingCmp (a b : PendingEvent) : Ordering :=
  (natCmp a.timestamp_ns b.timestamp_ns).then
    ((natCmp a.ingest_order b.ingest_order).then
      ((strCmp a.symbol b.symbol).then (strCmp a.venue b.venue)))

/-- The non-strict order induced by the comparator (`cmp != Greater`),
the order `Vec::sort_by` sorts by. -/
def pendingLe (a b : PendingEvent) : Prop :=
  pendingCmp a b ≠ Ordering.gt

instance : DecidableRel pendingLe := fun a b => by
  unfold pendingLe; infer_instance

/-- `assign_sequences`: stable sort by the four-key comparator, then number
1..N in the final order. `Vec::sort_by` is a stable sort with respect to a
total comparator, so it agrees with insertion sort on the same order. -/
def assign_sequences (pending : List PendingEvent) : List Event :=
  (List.insertionSort pendingLe pending).enum.map
    (fun ie => ie.2.into_event (ie.1 + 1))

/-- The lexicographic sort key named by the specification, valued in nested
lexicographic products. -/
def pendingKey (p : PendingEvent) :
    Lex (Nat × Lex (Nat × Lex (List Nat × List Nat))) :=
  toLex (p.timestamp_ns,
    toLex (p.ingest_order, toLex (strBytes p.symbol, strBytes p.venue)))

/-! ## Decimal parsing and the tick table (crates/core/src/tick.rs)

The crate stores prices as `rust_decimal::Decimal` values: an integer
mantissa scaled by a power of ten (at most 28 fractional digits, mantissa
below 2^96). `Dec` models that representation exactly. Division followed
by `round_dp_with_strategy(0, MidpointAwayFromZero)` is modelled from the
spec as midpoint-away-from-zero rounding of the exact quotient, computed
in integer arithmetic. -/

inductive TickError
  | invalidDecimal (raw : String)
  | nonPositiveTick
  | overflow
  | configParse (raw : String)
  deriving DecidableEq, Repr

structure Dec where
  m : Int
  scale : Nat
  deriving DecidableEq, Repr

/-- The exact rational value of a decimal. -/
def decToRat (d : Dec) : ℚ :=
  (d.m : ℚ) / ((10 : ℚ) ^ d.scale)

/-- Digits of a decimal literal, most significant first. -/
def digitsToNat : List Char → Nat → Option Nat
  | [], acc => some acc
  | c :: cs, acc =>
    if c.toNat < 48 ∨ 57 < c.toNat then none
    else digitsToNat cs (acc * 10 + (c.toNat - 48))

/-- Modelled from the spec: `rust_decimal::Decimal::from_str` (the
rust_decimal crate is outside the repository). Accepts an optional sign,
digits with at most one decimal point and at least one digit, at most 28
fractional digits, mantissa below 2^96; anything else is a non-parsable
decimal. -/
def parseDecimal (s : String) : Option Dec :=
  let (sign, body) :=
    match s.data with
    | c :: rest =>
      if c.toNat = 45 then ((-1 : Int), rest)
      else if c.toNat = 43 then ((1 : Int), rest)
      else ((1 : Int), s.data)
    | [] => ((1 : Int), s.data)
  let intPart := body.takeWhile (fun c => decide (48 ≤ c.toNat ∧ c.toNat ≤ 57))
  let rest := body.drop intPart.length
  match rest with
  | [] =>
    match digitsToNat intPart 0 with
    | none => none
    | some n =>
      if intPart.length = 0 then none
      else if 2 ^ 96 ≤ n then none
      else some ⟨sign * n, 0⟩
  | dot :: fracPart =>
    if dot.toNat ≠ 46 then none
    else
      match digitsToNat (intPart ++ fracPart) 0 with
      | none => none
      | some n =>
        if intPart.length + fracPart.length = 0 then none
        else if 28 < fracPart.length then none
        else if 2 ^ 96 ≤ n then none
        else some ⟨sign * n, fracPart.length⟩

/-- Midpoint-away-from-zero rounding of the fraction `a / b` (with `b`
positive), in integer arithmetic: `sign(a) * ((2|a| + b) / (2b))`. -/
def roundHalfAwayND (a b : Int) : Int :=
  let q : Nat := (2 * a.natAbs + b.natAbs) / (2 * b.natAbs)
  if a < 0 then -(q : Int) else (q : Int)

/-- Midpoint-away-from-zero rounding of an exact rational, the rounding
the specification ascribes to `price_to_ticks`. -/
def roundQ (q : ℚ) : ℤ :=
  if 0 ≤ q then ⌊q + 1 / 2⌋ else -⌊-q + 1 / 2⌋

structure TickTable where
  default_tick : Dec
  symbols : List (String × Dec)
  deriving DecidableEq, Repr

def TickTable.tick_for (t : TickTable) (symbol : String) : Dec :=
  (t.symbols.lookup symbol).getD t.default_tick

/-- `TickTable::price_to_ticks`: reject a non-positive tick, round the
quotient `price / tick` midpoint-away-from-zero at scale 0, fail with
`Overflow` when the result does not fit in `i64`. The quotient
`(price.m / 10^price.scale) / (tick.m / 10^tick.scale)` is the fraction
`price.m * 10^tick.scale / (tick.m * 10^price.scale)`. -/
def TickTable.price_to_ticks (t : TickTable) (symbol : String) (price : Dec) :
    Except TickError Int :=
  let tick := t.tick_for symbol
  if tick.m ≤ 0 then .error .nonPositiveTick
  else
    let rounded := roundHalfAwayND (price.m * 10 ^ tick.scale) (tick.m * 10 ^ price.scale)
    if rounded < -(2 ^ 63) ∨ 2 ^ 63 - 1 < rounded then .error .overflow
    else .ok rounded

/-- `TickTable::price_str_to_ticks`: parse the decimal then convert. -/
def TickTable.price_str_to_ticks (t : TickTable) (symbol : String) (price : String) :
    Except TickError Int :=
  match parseDecimal price with
  | none => .error (.invalidDecimal price)
  | some px => t.price_to_ticks symbol px

/-! ## CSV variant C (crates/ingest/src/csv.rs)

Rows are modelled after `csv::ReaderBuilder::trim(Trim::All)` has already
split and trimmed the fields, so a row is a record of field strings
(`RowC`); missing sparse columns arrive as empty strings (serde default). -/

inductive IngestError
  | time (detail : String)
  | tick (e : TickError)
  | parse (msg : String)
  deriving DecidableEq, Repr

/-- Digits of an unsigned integer literal; `none` on a non-digit or an
empty string, mirroring `str::parse::<u64>` up to the range check. -/
def parseNatStr (s : String) : Option Nat :=
  match s.data with
  | [] => none
  | cs => digitsToNat cs 0

/-- `str::parse::<u64>`: digits only (an optional `+` sign is accepted),
value below 2^64. -/
def parseU64Str (s : String) : Option Nat :=
  let body :=
    match s.data with
    | c :: rest => if c.toNat = 43 then String.mk rest else s
    | [] => s
  match parseNatStr body with
  | none => none
  | some v => if v < 2 ^ 64 then some v else none

/-- `str::parse::<i64>`: optional sign, digits, value within `i64`. -/
def parseI64Str (s : String) : Option Int :=
  let (sign, body) :=
    match s.data with
    | c :: rest =>
      if c.toNat = 45 then ((-1 : Int), String.mk rest)
      else if c.toNat = 43 then ((1 : Int), String.mk rest)
      else ((1 : Int), s)
    | [] => ((1 : Int), s)
  match parseNatStr body with
  | none => none
  | some v =>
    let value := sign * v
    if value < -(2 ^ 63) ∨ 2 ^ 63 - 1 < value then none else some value

def isAsciiWs (c : Char) : Bool :=
  c.toNat = 32 ∨ c.toNat = 9 ∨ c.toNat = 10 ∨ c.toNat = 13

/-- `str::trim`, restricted to ASCII whitespace (the only whitespace the
pipeline produces). -/
def trimStr (s : String) : String :=
  String.mk (((s.data.dropWhile isAsciiWs).reverse.dropWhile isAsciiWs).reverse)

/-- Days from the civil epoch 1970-01-01 for a Gregorian date (valid for
years ≥ 1970; the month is 1-based). Standard days-from-civil algorithm. -/
def daysFromCivil (y m d : Nat) : Nat :=
  let y' := if m ≤ 2 then y - 1 else y
  let era := y' / 400
  let yoe := y' % 400
  let mp := (m + 9) % 12
  let doy := (153 * mp + 2) / 5 + d - 1
  let doe := yoe * 365 + yoe / 4 - yoe / 100 + doy
  era * 146097 + doe - 719468

/-- Modelled from the spec: `chrono::DateTime::parse_from_rfc3339` followed
by `timestamp_nanos_opt` (the chrono crate is outside the repository).
Accepts `YYYY-MM-DDThh:mm:ss[.frac](Z|+hh:mm|-hh:mm)` with in-range
components, years from 1970 (the spec only requires that negative epochs
fail), and returns nanoseconds since the epoch. -/
def rfc3339Ns (raw : String) : Except IngestError Nat :=
  let bad : Except IngestError Nat := .error (.time raw)
  let cs := raw.data
  let digAt (i : Nat) : Option Nat :=
    let c := (cs.getD i (Char.ofNat 0)).toNat
    if 48 ≤ c ∧ c ≤ 57 then some (c - 48) else none
  let num2 (i : Nat) : Option Nat :=
    match digAt i, digAt (i + 1) with
    | some a, some b => some (a * 10 + b)
    | _, _ => none
  let num4 (i : Nat) : Option Nat :=
    match num2 i, num2 (i + 2) with
    | some a, some b => some (a * 100 + b)
    | _, _ => none
  let chAt (i : Nat) : Nat := (cs.getD i (Char.ofNat 0)).toNat
  match num4 0, num2 5, num2 8, num2 11, num2 14, num2 17 with
  | some y, some mo, some d, some h, some mi, some sec =>
    if chAt 4 ≠ 45 ∨ chAt 7 ≠ 45 ∨ (chAt 10 ≠ 84 ∧ chAt 10 ≠ 116) ∨
        chAt 13 ≠ 58 ∨ chAt 16 ≠ 58 then bad
    else if y < 1970 ∨ mo < 1 ∨ 12 < mo ∨ d < 1 ∨ 31 < d ∨ 23 < h ∨
        59 < mi ∨ 59 < sec then bad
    else
      let fracDigits := if chAt 19 = 46 then
        (cs.drop 20).takeWhile (fun c => decide (48 ≤ c.toNat ∧ c.toNat ≤ 57))
      else []
      let rest := if chAt 19 = 46 then cs.drop (20 + fracDigits.length) else cs.drop 19
      if chAt 19 = 46 ∧ fracDigits.length = 0 then bad
      else if 9 < fracDigits.length then bad
      else
        let subNs := (digitsToNat fracDigits 0).getD 0 * 10 ^ (9 - fracDigits.length)
        let base := daysFromCivil y mo d * 86400 + h * 3600 + mi * 60 + sec
        match rest with
        | [z] =>
          if z.toNat = 90 ∨ z.toNat = 122 then .ok (base * 1000000000 + subNs)
          else bad
        | s :: r =>
          let offStr := String.mk r
          match r with
          | [h1, h2, colon, m1, m2] =>
            let oh := (h1.toNat - 48) * 10 + (h2.toNat - 48)
            let om := (m1.toNat - 48) * 10 + (m2.toNat - 48)
            if colon.toNat ≠ 58 ∨ (parseNatStr (String.mk [h1, h2])).isNone ∨
                (parseNatStr (String.mk [m1, m2])).isNone ∨ 23 < oh ∨ 59 < om then bad
            else
              let offSec := oh * 3600 + om * 60
              let _ := offStr
              if s.toNat = 43 then
                if base < offSec then .error (.parse ("negative timestamp: " ++ raw))
                else .ok ((base - offSec) * 1000000000 + subNs)
              else if s.toNat = 45 then .ok ((base + offSec) * 1000000000 + subNs)
              else bad
          | _ => bad
        | [] => bad
  | _, _, _, _, _, _ => bad

/-- `parse_mixed_ts_ns`: an RFC 3339 string when a `T` is present, else
integer milliseconds since the epoch scaled by 1 000 000 with overflow
detection (`checked_mul`). -/
def parseMixedTsNs (raw : String) : Except IngestError Nat :=
  if raw.data.contains (Char.ofNat 84) then rfc3339Ns raw
  else
    match parseU64Str raw with
    | none => .error (.parse ("invalid timestamp: " ++ raw))
    | some v =>
      if 2 ^ 64 ≤ v * 1000000 then .error (.parse ("timestamp overflow: " ++ raw))
      else .ok (v * 1000000)

/-- `parse_i64_or_zero`: trim, empty becomes zero, else parse an `i64`. -/
def parseI64OrZero (raw : String) : Except IngestError Int :=
  let v := trimStr raw
  if v.data.isEmpty then .ok 0
  else
    match parseI64Str v with
    | none => .error (.parse ("invalid integer: " ++ raw))
    | some n => .ok n

/-- A variant-C row after the csv crate has split and trimmed it. `rtype`
is the Rust field `r#type`. -/
structure RowC where
  timestamp : String
  symbol : String
  rtype : String
  price : String
  size : String
  bid_px : String
  bid_sz : String
  ask_px : String
  ask_sz : String
  deriving DecidableEq, Repr

/-- A single-quote character as a string (ASCII 39), used in the parse
error message of `parse_csv_c`. -/
def sqch : String :=
  String.mk [Char.ofNat 39]

/-- The error `parse_csv_c` raises for an unknown `type` value: the Rust
code formats the message with the offending type value single-quoted and
the 1-based row number. -/
def unknownRowTypeMsg (other : String) (idx : Nat) : String :=
  "unknown row type " ++ sqch ++ other ++ sqch ++ " at row " ++ toString (idx + 1)

/-- The body of the `parse_csv_c` loop from row `idx` on. The `type` field
is matched against the exact strings of the Rust match arms. -/
def parseCsvCFrom (venue : String) (ticks : TickTable) :
    List RowC → Nat → Except IngestError (List PendingEvent)
  | [], _ => .ok []
  | row :: rest, idx =>
    match parseMixedTsNs row.timestamp with
    | .error e => .error e
    | .ok ts =>
      let payloadE : Except IngestError Payload :=
        if row.rtype = "trade" ∨ row.rtype = "Trade" ∨ row.rtype = "TRADE" then
          match ticks.price_str_to_ticks row.symbol row.price with
          | .error e => .error (.tick e)
          | .ok price_ticks =>
            match parseI64OrZero row.size with
            | .error e => .error e
            | .ok size => .ok (.trade price_ticks size)
        else if row.rtype = "quote" ∨ row.rtype = "Quote" ∨ row.rtype = "QUOTE" then
          match ticks.price_str_to_ticks row.symbol row.bid_px with
          | .error e => .error (.tick e)
          | .ok bid_px =>
            match ticks.price_str_to_ticks row.symbol row.ask_px with
            | .error e => .error (.tick e)
            | .ok ask_px =>
              match parseI64OrZero row.bid_sz, parseI64OrZero row.ask_sz with
              | .error e, _ => .error e
              | _, .error e => .error e
              | .ok bid_sz, .ok ask_sz => .ok (.quote bid_px bid_sz ask_px ask_sz)
        else .error (.parse (unknownRowTypeMsg row.rtype idx))
      match payloadE with
      | .error e => .error e
      | .ok payload =>
        match parseCsvCFrom venue ticks rest (idx + 1) with
        | .error e => .error e
        | .ok tail =>
          .ok (⟨ts, venue, row.symbol, payload, idx⟩ :: tail)

/-- `parse_csv_c` over the already-split rows of the file. -/
def parse_csv_c (rows : List RowC) (venue : String) (ticks : TickTable) :
    Except IngestError (List PendingEvent) :=
  parseCsvCFrom venue ticks rows 0

/-! ## Event-log codec (crates/storage/src/eventlog.rs)

A file is a list of byte values. Reads mirror `BufReader::read_exact`:
a read that would pass the end of the file fails with `UnexpectedEof`
(modelled as `ioEof`). `crc32` is CRC-32/IEEE (reflected polynomial
0xEDB88320), the function computed by the crc32fast crate. -/

inductive StorageErr
  | ioEof
  | serialize (detail : String)
  | crcMismatch (offset : Nat)
  | invalidFormat (msg : String)
  deriving DecidableEq, Repr

def crc32Round (c : Nat) : Nat :=
  if c % 2 = 1 then Nat.xor (c / 2) 0xEDB88320 else c / 2

def crc32Byte (c b : Nat) : Nat :=
  Nat.iterate crc32Round 8 (Nat.xor c b)

/-- CRC-32 (IEEE polynomial) over a byte sequence. -/
def crc32 (bytes : List Nat) : Nat :=
  Nat.xor (bytes.foldl crc32Byte 0xFFFFFFFF) 0xFFFFFFFF

/-- The `n` bytes of the file starting at `pos`. -/
def recordSlice (bytes : List Nat) (pos n : Nat) : List Nat :=
  (bytes.drop pos).take n

/-- Little-endian value of a byte sequence, least significant byte first. -/
def leNat (bytes : List Nat) : Nat :=
  bytes.foldr (fun b acc => b + 256 * acc) 0

/-- Little-endian bytes of `n` with the given width. -/
def leBytes : Nat → Nat → List Nat
  | 0, _ => []
  | w + 1, n => n % 256 :: leBytes w (n / 256)

/-- UTF-8 decoding of a byte sequence into code points; `none` on any
ill-formed sequence (overlong forms, surrogates and out-of-range values
rejected), matching `String::from_utf8`. -/
def utf8Decode : List Nat → Option (List Char)
  | [] => some []
  | b :: rest =>
    if b < 128 then
      (utf8Decode rest).map (fun cs => Char.ofNat b :: cs)
    else if b < 194 then none
    else if b < 224 then
      match rest with
      | c1 :: rest' =>
        if 128 ≤ c1 ∧ c1 < 192 then
          (utf8Decode rest').map (fun cs => Char.ofNat ((b - 192) * 64 + (c1 - 128)) :: cs)
        else none
      | [] => none
    else if b < 240 then
      match rest with
      | c1 :: c2 :: rest' =>
        if 128 ≤ c1 ∧ c1 < 192 ∧ 128 ≤ c2 ∧ c2 < 192 then
          let cp := (b - 224) * 4096 + (c1 - 128) * 64 + (c2 - 128)
          if cp < 2048 ∨ (55296 ≤ cp ∧ cp < 57344) then none
          else (utf8Decode rest').map (fun cs => Char.ofNat cp :: cs)
        else none
      | _ => none
    else if b < 245 then
      match rest with
      | c1 :: c2 :: c3 :: rest' =>
        if 128 ≤ c1 ∧ c1 < 192 ∧ 128 ≤ c2 ∧ c2 < 192 ∧ 128 ≤ c3 ∧ c3 < 192 then
          let cp := (b - 240) * 262144 + (c1 - 128) * 4096 + (c2 - 128) * 64 + (c3 - 128)
          if cp < 65536 ∨ 1114111 < cp then none
          else (utf8Decode rest').map (fun cs => Char.ofNat cp :: cs)
        else none
      | _ => none
    else none

structure EventLogHeader where
  version : Nat
  schema_hash : Nat
  symbols : List String
  data_offset : Nat
  deriving DecidableEq, Repr

/-- The ASCII bytes of the event-log magic `MDELOG01`. -/
def logMagic : List Nat :=
  strBytes "MDELOG01"

/-- The symbol table of the header: `count` entries of one length byte
followed by that many UTF-8 bytes, read from `pos`. -/
def readSymbols (bytes : List Nat) : Nat → Nat → Except StorageErr (List String × Nat)
  | pos, 0 => .ok ([], pos)
  | pos, count + 1 =>
    if bytes.length < pos + 1 then .error .ioEof
    else
      let n := bytes.getD pos 0
      if bytes.length < pos + 1 + n then .error .ioEof
      else
        match utf8Decode (recordSlice bytes (pos + 1) n) with
        | none => .error (.invalidFormat ("symbol utf8"))
        | some cs =>
          match readSymbols bytes (pos + 1 + n) count with
          | .error e => .error e
          | .ok (syms, fin) => .ok (String.mk cs :: syms, fin)

/-- `EventLogReader::open`: magic, version, schema hash (recorded, not
validated), symbol table; the cursor position after the header is the
`data_offset`. -/
def openLog (bytes : List Nat) : Except StorageErr EventLogHeader :=
  if bytes.length < 8 then .error .ioEof
  else if recordSlice bytes 0 8 ≠ logMagic then .error (.invalidFormat ("bad magic"))
  else if bytes.length < 10 then .error .ioEof
  else
    let version := leNat (recordSlice bytes 8 2)
    if version ≠ 1 then .error (.invalidFormat ("unsupported version " ++ toString version))
    else if bytes.length < 18 then .error .ioEof
    else
      let schema_hash := leNat (recordSlice bytes 10 8)
      if bytes.length < 22 then .error .ioEof
      else
        let symbol_count := leNat (recordSlice bytes 18 4)
        match readSymbols bytes 22 symbol_count with
        | .error e => .error e
        | .ok (symbols, data_offset) =>
          .ok ⟨version, schema_hash, symbols, data_offset⟩

/-- `default_schema_hash()`: `crc32fast::hash(b"event_v1")` zero-extended. -/
def default_schema_hash : Nat :=
  crc32 (strBytes "event_v1")

/-! Deserialization of a record payload. Modelled from the spec:
`bincode::deserialize::<Event>` (the bincode crate is outside the
repository) - field order `timestamp_ns, sequence, venue, symbol,
event_type, payload`; integers little-endian; strings as a u64 length
followed by UTF-8 bytes; enums as a u32 variant tag followed by the
variant fields. -/

def dTake (bytes : List Nat) (pos n : Nat) : Except StorageErr (List Nat × Nat) :=
  if bytes.length < pos + n then .error (.serialize ("eof"))
  else .ok (recordSlice bytes pos n, pos + n)

def dU64 (bytes : List Nat) (pos : Nat) : Except StorageErr (Nat × Nat) :=
  match dTake bytes pos 8 with
  | .error e => .error e
  | .ok (bs, p) => .ok (leNat bs, p)

def dU32 (bytes : List Nat) (pos : Nat) : Except StorageErr (Nat × Nat) :=
  match dTake bytes pos 4 with
  | .error e => .error e
  | .ok (bs, p) => .ok (leNat bs, p)

/-- A little-endian `i64`: the two's-complement value of the 8 bytes. -/
def dI64 (bytes : List Nat) (pos : Nat) : Except StorageErr (Int × Nat) :=
  match dTake bytes pos 8 with
  | .error e => .error e
  | .ok (bs, p) =>
    let n := leNat bs
    .ok (if n < 2 ^ 63 then (n : Int) else (n : Int) - 2 ^ 64, p)

def dStr (bytes : List Nat) (pos : Nat) : Except StorageErr (String × Nat) :=
  match dU64 bytes pos with
  | .error e => .error e
  | .ok (n, p) =>
    match dTake bytes p n with
    | .error e => .error e
    | .ok (bs, p') =>
      match utf8Decode bs with
      | none => .error (.serialize ("utf8"))
      | some cs => .ok (String.mk cs, p')

def decodeEvent (payload : List Nat) : Except StorageErr Event :=
  match dU64 payload 0 with
  | .error e => .error e
  | .ok (ts, p1) =>
    match dU64 payload p1 with
    | .error e => .error e
    | .ok (seq, p2) =>
      match dStr payload p2 with
      | .error e => .error e
      | .ok (venue, p3) =>
        match dStr payload p3 with
        | .error e => .error e
        | .ok (symbol, p4) =>
          match dU32 payload p4 with
          | .error e => .error e
          | .ok (tyTag, p5) =>
            let evTy : Except StorageErr EventType :=
              if tyTag = 0 then .ok .trade
              else if tyTag = 1 then .ok .quote
              else .error (.serialize ("variant"))
            match evTy with
            | .error e => .error e
            | .ok ety =>
              match dU32 payload p5 with
              | .error e => .error e
              | .ok (pTag, p6) =>
                if pTag = 0 then
                  match dI64 payload p6 with
                  | .error e => .error e
                  | .ok (px, p7) =>
                    match dI64 payload p7 with
                    | .error e => .error e
                    | .ok (sz, _) => .ok ⟨ts, seq, venue, symbol, ety, .trade px sz⟩
                else if pTag = 1 then
                  match dI64 payload p6 with
                  | .error e => .error e
                  | .ok (bp, p7) =>
                    match dI64 payload p7 with
                    | .error e => .error e
                    | .ok (bs, p8) =>
                      match dI64 payload p8 with
                      | .error e => .error e
                      | .ok (ap, p9) =>
                        match dI64 payload p9 with
                        | .error e => .error e
                        | .ok (asz, _) => .ok ⟨ts, seq, venue, symbol, ety, .quote bp bs ap asz⟩
                else .error (.serialize ("variant"))

structure ReadRecord where
  offset : Nat
  event : Event
  deriving DecidableEq, Repr

/-- `EventLogReader::next_record` at cursor position `pos`: an
`UnexpectedEof` while reading the 4-byte length prefix yields `Ok(None)`;
any later short read is an error; a stored CRC different from the CRC-32
of the payload bytes fails with `CrcMismatch` at the record's starting
offset; otherwise the payload is deserialized. -/
def next_record (bytes : List Nat) (pos : Nat) : Except StorageErr (Option ReadRecord) :=
  if bytes.length < pos + 4 then .ok none
  else
    let len := leNat (recordSlice bytes pos 4)
    if bytes.length < pos + 8 then .error .ioEof
    else
      let crcStored := leNat (recordSlice bytes (pos + 4) 4)
      if bytes.length < pos + 8 + len then .error .ioEof
      else
        let payload := recordSlice bytes (pos + 8) len
        if crc32 payload ≠ crcStored then .error (.crcMismatch pos)
        else
          match decodeEvent payload with
          | .error e => .error e
          | .ok event => .ok (some ⟨pos, event⟩)

/-! ## Sparse time index (crates/storage/src/index.rs) -/

structure IndexEntry where
  timestamp_ns : Nat
  sequence : Nat
  byte_offset : Nat
  deriving DecidableEq, Repr

instance : Inhabited IndexEntry :=
  ⟨⟨0, 0, 0⟩⟩

/-- The loop of `slice::partition_point` (binary search, Rust core): at
each step `mid = left + (right - left) / 2`; a true predicate moves
`left` past `mid`, a false one moves `right` to `mid`. The loop runs
until `left = right`; the interval shrinks every step, so `right - left`
steps of fuel always suffice. -/
def ppLoop (p : IndexEntry → Bool) (l : List IndexEntry) :
    Nat → Nat → Nat → Nat
  | 0, left, _ => left
  | fuel + 1, left, right =>
    if left < right then
      let mid := left + (right - left) / 2
      if p (l.getD mid default) then ppLoop p l fuel (mid + 1) right
      else ppLoop p l fuel left mid
    else left

def partitionPoint (p : IndexEntry → Bool) (l : List IndexEntry) : Nat :=
  ppLoop p l l.length 0 l.length

/-- `IndexReader::seek_offset`: none when empty; otherwise partition by
`timestamp_ns <= from_ns` and return the offset of the entry just before
the partition point (the first entry when the point is zero). -/
def seek_offset (entries : List IndexEntry) (from_ns : Nat) : Option Nat :=
  if entries.isEmpty then none
  else
    let idx := partitionPoint (fun e => decide (e.timestamp_ns ≤ from_ns)) entries
    if idx = 0 then some ((entries.getD 0 default).byte_offset)
    else some ((entries.getD (idx - 1) default).byte_offset)

/-- `IndexWriter::maybe_add` over a whole run: an entry is written for the
events whose running count `seen` is a multiple of the stride. -/
def maybeAddAll (stride : Nat) : List (Event × Nat) → Nat → List IndexEntry
  | [], _ => []
  | (e, offset) :: rest, seen =>
    (if seen % stride = 0 then [⟨e.timestamp_ns, e.sequence, offset⟩] else []) ++
      maybeAddAll stride rest (seen + 1)

/-- `Event::trade`, the constructor the index tests use. -/
def Event.trade (timestamp_ns sequence : Nat) (venue symbol : String)
    (price_ticks size : Int) : Event :=
  ⟨timestamp_ns, sequence, venue, symbol, .trade, .trade price_ticks size⟩

/-! ## Binary message decoder (crates/ingest/src/itch.rs)

`parse_message` is embedded twice: `parse_message` is the plain
functional translation, and `parse_message_checked` additionally models
every place the Rust code could panic (the slice indexing inside
`Reader::take` and the `try_into().expect(..)` width checks) as an
explicit `none`, so that totality is a provable statement rather than an
artifact of the embedding. -/

inductive Side
  | bid
  | ask
  deriving DecidableEq, Repr

inductive MockItchMessage
  | addOrder (timestamp_ns : Nat) (symbol : String) (side : Side)
      (price_i64 : Int) (size_i64 : Int)
  | trade (timestamp_ns : Nat) (symbol : String)
      (price_i64 : Int) (size_i64 : Int)
  deriving DecidableEq, Repr

structure ItchParseError where
  offset : Nat
  detail : String
  deriving DecidableEq, Repr

/-- Big-endian value of a byte sequence. -/
def beNat (bytes : List Nat) : Nat :=
  bytes.foldl (fun acc b => acc * 256 + b) 0

/-- Big-endian two's-complement `i64` of 8 bytes. -/
def beInt (bytes : List Nat) : Int :=
  let n := beNat bytes
  if n < 2 ^ 63 then (n : Int) else (n : Int) - 2 ^ 64

def shortPacketMsg (len : Nat) : String :=
  "short packet need " ++ toString len ++ " bytes"

/-- `Reader::take`: fail with a field-offset error when fewer than `len`
bytes remain, else consume them. -/
def takeR (data : List Nat) (off len fieldOff : Nat) :
    Except ItchParseError (List Nat × Nat) :=
  if data.length < off + len then .error ⟨fieldOff, shortPacketMsg len⟩
  else .ok ((data.drop off).take len, off + len)

/-- Trailing spaces and NULs removed, as `trim_end_matches([' ', '\0'])`. -/
def trimSymEnd (cs : List Nat) : List Nat :=
  (cs.reverse.dropWhile (fun b => b = 32 ∨ b = 0)).reverse

/-- `Reader::read_symbol`: 8 bytes, required 7-bit ASCII, trailing pad
stripped. -/
def readSymbolR (data : List Nat) (off fieldOff : Nat) :
    Except ItchParseError (String × Nat) :=
  match takeR data off 8 fieldOff with
  | .error e => .error e
  | .ok (bs, off') =>
    if bs.all (fun b => b < 128) then
      .ok (String.mk ((trimSymEnd bs).map Char.ofNat), off')
    else .error ⟨fieldOff, "symbol is not valid ASCII"⟩

/-- `parse_message` (plain embedding). -/
def parse_message (payload : List Nat) : Except ItchParseError MockItchMessage :=
  match takeR payload 0 8 0 with
  | .error e => .error e
  | .ok (tsBytes, o1) =>
    let timestamp_ns := beNat tsBytes
    match takeR payload o1 4 8 with
    | .error e => .error e
    | .ok (tyBytes, o2) =>
      let msgTy := beNat tyBytes
      if msgTy = 1 then
        match readSymbolR payload o2 12 with
        | .error e => .error e
        | .ok (symbol, o3) =>
          match takeR payload o3 1 20 with
          | .error e => .error e
          | .ok (sideBytes, o4) =>
            let sideB := sideBytes.getD 0 0
            if sideB = 0 ∨ sideB = 1 then
              let side := if sideB = 0 then Side.bid else Side.ask
              match takeR payload o4 8 21 with
              | .error e => .error e
              | .ok (pxBytes, o5) =>
                match takeR payload o5 8 29 with
                | .error e => .error e
                | .ok (szBytes, o6) =>
                  if payload.length - o6 ≠ 0 then .error ⟨o6, "trailing bytes"⟩
                  else .ok (.addOrder timestamp_ns symbol side (beInt pxBytes) (beInt szBytes))
            else .error ⟨20, "invalid side " ++ toString sideB⟩
      else if msgTy = 2 then
        match readSymbolR payload o2 12 with
        | .error e => .error e
        | .ok (symbol, o3) =>
          match takeR payload o3 8 20 with
          | .error e => .error e
          | .ok (pxBytes, o4) =>
            match takeR payload o4 8 28 with
            | .error e => .error e
            | .ok (szBytes, o5) =>
              if payload.length - o5 ≠ 0 then .error ⟨o5, "trailing bytes"⟩
              else .ok (.trade timestamp_ns symbol (beInt pxBytes) (beInt szBytes))
      else .error ⟨8, "unknown message type " ++ toString msgTy⟩

/-- A slice `data[start..stop]` with the bounds check Rust indexing
performs; `none` models the out-of-bounds panic. -/
def sliceP (data : List Nat) (start stop : Nat) : Option (List Nat) :=
  if start ≤ stop ∧ stop ≤ data.length then some ((data.drop start).take (stop - start))
  else none

/-- `Reader::take` with the panic surface explicit: the outer `none` is a
panic (out-of-bounds slice), the inner value the Rust return. -/
def takeRP (data : List Nat) (off len fieldOff : Nat) :
    Option (Except ItchParseError (List Nat × Nat)) :=
  if data.length < off + len then some (.error ⟨fieldOff, shortPacketMsg len⟩)
  else (sliceP data off (off + len)).map (fun bs => .ok (bs, off + len))

/-- A `try_into().expect(..)` width check: panic (`none`) unless the slice
has exactly the expected width. -/
def widthCheck (bs : List Nat) (w : Nat) : Option (List Nat) :=
  if bs.length = w then some bs else none

/-- Sequencing in the combined panic-or-parse-error shape. -/
def pstep {α β : Type} (x : Option (Except ItchParseError α))
    (f : α → Option (Except ItchParseError β)) :
    Option (Except ItchParseError β) :=
  match x with
  | none => none
  | some (.error e) => some (.error e)
  | some (.ok a) => f a

def readWidthP (data : List Nat) (off len fieldOff : Nat) :
    Option (Except ItchParseError (List Nat × Nat)) :=
  pstep (takeRP data off len fieldOff) (fun bo =>
    (widthCheck bo.1 len).map (fun bs => .ok (bs, bo.2)))

def readSymbolP (data : List Nat) (off fieldOff : Nat) :
    Option (Except ItchParseError (String × Nat)) :=
  pstep (takeRP data off 8 fieldOff) (fun bo =>
    if bo.1.all (fun b => b < 128) then
      some (.ok (String.mk ((trimSymEnd bo.1).map Char.ofNat), bo.2))
    else some (.error ⟨fieldOff, "symbol is not valid ASCII"⟩))

/-- `parse_message` with every potential panic modelled as `none`. -/
def parse_message_checked (payload : List Nat) :
    Option (Except ItchParseError MockItchMessage) :=
  pstep (readWidthP payload 0 8 0) (fun ts =>
    pstep (readWidthP payload ts.2 4 8) (fun ty =>
      let msgTy := beNat ty.1
      if msgTy = 1 then
        pstep (readSymbolP payload ty.2 12) (fun sym =>
          pstep (readWidthP payload sym.2 1 20) (fun sb =>
            let sideB := sb.1.getD 0 0
            if sideB = 0 ∨ sideB = 1 then
              let side := if sideB = 0 then Side.bid else Side.ask
              pstep (readWidthP payload sb.2 8 21) (fun px =>
                pstep (readWidthP payload px.2 8 29) (fun sz =>
                  if payload.length - sz.2 ≠ 0 then some (.error ⟨sz.2, "trailing bytes"⟩)
                  else some (.ok (.addOrder (beNat ts.1) sym.1 side (beInt px.1) (beInt sz.1)))))
            else some (.error ⟨20, "invalid side " ++ toString sideB⟩)))
      else if msgTy = 2 then
        pstep (readSymbolP payload ty.2 12) (fun sym =>
          pstep (readWidthP payload sym.2 8 20) (fun px =>
            pstep (readWidthP payload px.2 8 28) (fun sz =>
              if payload.length - sz.2 ≠ 0 then some (.error ⟨sz.2, "trailing bytes"⟩)
              else some (.ok (.trade (beNat ts.1) sym.1 (beInt px.1) (beInt sz.1))))))
      else some (.error ⟨8, "unknown message type " ++ toString msgTy⟩)))

/-! ## PCAP ingest (crates/ingest/src/pcap_ingest.rs) -/

structure ParseIssue where
  packet_index : Nat
  offset : Nat
  detail : String
  deriving DecidableEq, Repr

structure TopBook where
  bid_px : Int
  bid_sz : Int
  ask_px : Int
  ask_sz : Int
  deriving DecidableEq, Repr

instance : Inhabited TopBook :=
  ⟨⟨0, 0, 0, 0⟩⟩

/-- `HashMap::entry(..).or_default()` read, on an association-list model
of the per-symbol book map. -/
def bookGet (books : List (String × TopBook)) (sym : String) : TopBook :=
  (books.lookup sym).getD default

def bookSet : List (String × TopBook) → String → TopBook → List (String × TopBook)
  | [], sym, tb => [(sym, tb)]
  | (k, v) :: rest, sym, tb =>
    if k = sym then (sym, tb) :: rest else (k, v) :: bookSet rest sym tb

/-- `extract_udp_payload`: Ethernet II + IPv4 + UDP framing checks, each
failure carrying an offset into the frame and a reason. -/
def extract_udp_payload (data : List Nat) : Except (Nat × String) (List Nat) :=
  if data.length < 14 then .error (0, "short ethernet header")
  else
    let ethertype := (data.getD 12 0) * 256 + data.getD 13 0
    if ethertype ≠ 0x0800 then .error (12, "unsupported ethertype")
    else if data.length < 14 + 20 then .error (14, "short ipv4 header")
    else
      let version_ihl := data.getD 14 0
      let version := version_ihl / 16
      let ihl := version_ihl % 16 * 4
      if version ≠ 4 then .error (14, "unsupported ip version " ++ toString version)
      else if ihl < 20 then .error (14, "invalid ipv4 ihl")
      else if data.length < 14 + ihl then .error (14, "truncated ipv4 header")
      else
        let proto := data.getD (14 + 9) 0
        if proto ≠ 17 then .error (14 + 9, "non-udp protocol " ++ toString proto)
        else
          let udpOff := 14 + ihl
          if data.length < udpOff + 8 then .error (udpOff, "short udp header")
          else
            let udpLen := (data.getD (udpOff + 4) 0) * 256 + data.getD (udpOff + 5) 0
            if udpLen < 8 then .error (udpOff + 4, "invalid udp length")
            else if data.length < udpOff + udpLen then
              .error (udpOff + 4, "truncated udp payload")
            else .ok ((data.drop (udpOff + 8)).take (udpLen - 8))

/-- The `ingest_pcap` loop over the frames of the capture, carrying the
packet index, the ingest-order counter and the per-symbol books. Note the
counter is incremented before it is stored on the pending event, so the
first parsed message carries `ingest_order = 1`. -/
def ingestLoop (venue : String) :
    List (List Nat) → Nat → Nat → List (String × TopBook) →
    List PendingEvent × List ParseIssue
  | [], _, _, _ => ([], [])
  | frame :: rest, packet_index, ingest_order, books =>
    let pi := packet_index + 1
    match extract_udp_payload frame with
    | .error (off, detail) =>
      let out := ingestLoop venue rest pi ingest_order books
      (out.1, ⟨pi, off, detail⟩ :: out.2)
    | .ok payload =>
      match parse_message payload with
      | .error err =>
        let out := ingestLoop venue rest pi ingest_order books
        (out.1, ⟨pi, err.offset, err.detail⟩ :: out.2)
      | .ok msg =>
        let io' := ingest_order + 1
        match msg with
        | .trade timestamp_ns symbol price_i64 size_i64 =>
          let evt : PendingEvent :=
            ⟨timestamp_ns, venue, symbol, .trade price_i64 size_i64, io'⟩
          let out := ingestLoop venue rest pi io' books
          (evt :: out.1, out.2)
        | .addOrder timestamp_ns symbol side price_i64 size_i64 =>
          let book := bookGet books symbol
          let book' :=
            match side with
            | .bid => { book with bid_px := price_i64, bid_sz := size_i64 }
            | .ask => { book with ask_px := price_i64, ask_sz := size_i64 }
          let evt : PendingEvent :=
            ⟨timestamp_ns, venue, symbol,
              .quote book'.bid_px book'.bid_sz book'.ask_px book'.ask_sz, io'⟩
          let out := ingestLoop venue rest pi io' (bookSet books symbol book')
          (evt :: out.1, out.2)

structure PcapIngestOutput where
  events : List Event
  issues : List ParseIssue
  deriving Repr

/-- `ingest_pcap` over the frames of the capture file. -/
def ingest_pcap (frames : List (List Nat)) (venue : String) : PcapIngestOutput :=
  let out := ingestLoop venue frames 0 0 []
  ⟨assign_sequences out.1, out.2⟩

/-- Whether a frame survives both extraction and message parsing (the
condition under which the loop advances `ingest_order`). -/
def frameParses (frame : List Nat) : Bool :=
  match extract_udp_payload frame with
  | .error _ => false
  | .ok payload => (parse_message payload).isOk

/-! ## Replay engine and RPC merge (crates/replay/src/engine.rs, grpc.rs)

`speed` is an `f64` in the code; it is modelled as an exact rational. The
only operations performed on it (comparison with zero, division of a
nanosecond delta) are exact at every value the claims mention. -/

structure ReplayConfig where
  from_ns : Option Nat
  to_ns : Option Nat
  speed : ℚ
  max_speed : Bool
  step_mode : Bool
  deriving DecidableEq, Repr

structure StreamRequest where
  from_ns : Nat
  to_ns : Nat
  speed : ℚ
  max_speed : Bool
  step_mode : Bool
  deriving DecidableEq, Repr

/-- `merged_config`: a zero numeric request field keeps the server
default (for `speed` the code treats every non-positive value that way);
booleans are OR-ed. -/
def merged_config (defaults : ReplayConfig) (req : StreamRequest) : ReplayConfig :=
  { from_ns := if req.from_ns = 0 then defaults.from_ns else some req.from_ns
    to_ns := if req.to_ns = 0 then defaults.to_ns else some req.to_ns
    speed := if req.speed ≤ 0 then defaults.speed else req.speed
    max_speed := defaults.max_speed || req.max_speed
    step_mode := defaults.step_mode || req.step_mode }

/-- One observable step of `stream_with_pacing`: a scheduler yield, a
sleep until a deadline (nanoseconds after `start`), or a send. -/
inductive PacingAction
  | yieldNow
  | sleepUntil (deadlineNs : Nat)
  | send (e : Event)
  deriving DecidableEq, Repr

/-- The trace of `stream_with_pacing`: per event, when `max_speed` is off,
either one yield (step mode) or one sleep to `start + dt/speed`; then the
send. The sink accepts `accept` sends and then reports closure; a failed
send breaks the loop. `firstTs` models the `first_ts` cell, set on first
use inside the real-time branch. -/
def pacingTrace (config : ReplayConfig) (accept : Nat) :
    List Event → Option Nat → Nat → List PacingAction
  | [], _, _ => []
  | e :: rest, firstTs, sent =>
    let baseline := firstTs.getD e.timestamp_ns
    let pre : List PacingAction :=
      if config.max_speed then []
      else if config.step_mode then [.yieldNow]
      else
        let dt := e.timestamp_ns - baseline
        let speed := if config.speed ≤ 0 then 1 else config.speed
        [.sleepUntil ((dt : ℚ) / speed).floor.toNat]
    let firstTs' :=
      if config.max_speed ∨ config.step_mode then firstTs else some baseline
    if sent < accept then
      pre ++ .send e :: pacingTrace config accept rest firstTs' (sent + 1)
    else pre

/-- `stream_with_pacing(events, config, tx)` as its action trace, against
a sink that accepts `accept` sends before the consumer goes away. -/
def stream_with_pacing (events : List Event) (config : ReplayConfig)
    (accept : Nat) : List PacingAction :=
  pacingTrace config accept events none 0

/-! ## Comparator lemmas -/

theorem natCmp_eq_iff (m n : Nat) : natCmp m n = .eq ↔ m = n := by
  unfold natCmp; split_ifs <;> simp <;> omega

theorem natCmp_lt_iff (m n : Nat) : natCmp m n = .lt ↔ m < n := by
  unfold natCmp; split_ifs <;> simp <;> omega

theorem natCmp_gt_iff (m n : Nat) : natCmp m n = .gt ↔ n < m := by
  unfold natCmp; split_ifs <;> simp <;> omega

theorem listNatCmp_eq_iff : ∀ as bs : List Nat, listNatCmp as bs = .eq ↔ as = bs
  | [], [] => by simp [listNatCmp]
  | [], _ :: _ => by simp [listNatCmp]
  | _ :: _, [] => by simp [listNatCmp]
  | a :: as, b :: bs => by
    rw [listNatCmp]
    rcases h : natCmp a b with hlt | heq | hgt <;>
      simp_all [natCmp_eq_iff, natCmp_lt_iff, natCmp_gt_iff, listNatCmp_eq_iff as bs] <;>
      omega

theorem natCmp_swap (m n : Nat) : natCmp m n = (natCmp n m).swap := by
  unfold natCmp; split_ifs <;> simp [Ordering.swap] <;> omega

theorem listNatCmp_lt_iff :
    ∀ as bs : List Nat, listNatCmp as bs = .lt ↔ List.Lex (· < ·) as bs
  | [], [] => by
    constructor
    · intro h; simp [listNatCmp] at h
    · intro h; cases h
  | [], _ :: _ => by
    exact iff_of_true (by simp [listNatCmp]) List.Lex.nil
  | _ :: _, [] => by
    constructor
    · intro h; simp [listNatCmp] at h
    · intro h; cases h
  | a :: as, b :: bs => by
    rw [listNatCmp]
    rcases h : natCmp a b with _ | _ | _
    · have hab := (natCmp_lt_iff a b).mp h
      exact iff_of_true rfl (List.Lex.rel hab)
    · have hab := (natCmp_eq_iff a b).mp h
      subst hab
      constructor
      · exact fun h' => List.Lex.cons ((listNatCmp_lt_iff as bs).mp h')
      · intro h'
        cases h' with
        | cons h'' => exact (listNatCmp_lt_iff as bs).mpr h''
        | rel h'' => exact absurd h'' (lt_irrefl a)
    · have hab := (natCmp_gt_iff a b).mp h
      constructor
      · intro h'; cases h'
      · intro h'
        cases h' with
        | cons h'' => omega
        | rel h'' => omega

theorem listNatCmp_swap : ∀ as bs : List Nat, listNatCmp as bs = (listNatCmp bs as).swap
  | [], [] => by simp [listNatCmp, Ordering.swap]
  | [], _ :: _ => by simp [listNatCmp, Ordering.swap]
  | _ :: _, [] => by simp [listNatCmp, Ordering.swap]
  | a :: as, b :: bs => by
    rw [listNatCmp, listNatCmp, natCmp_swap a b]
    rcases h : natCmp b a with _ | _ | _ <;>
      simp [h, Ordering.swap, listNatCmp_swap as bs]

theorem listNatCmp_gt_iff (as bs : List Nat) :
    listNatCmp as bs = .gt ↔ List.Lex (· < ·) bs as := by
  rw [listNatCmp_swap as bs, ← listNatCmp_lt_iff bs as]
  cases listNatCmp bs as <;> simp [Ordering.swap]

theorem thenSwap (o₁ o₂ : Ordering) : (o₁.then o₂).swap = o₁.swap.then o₂.swap := by
  cases o₁ <;> rfl

theorem pendingCmp_swap (a b : PendingEvent) :
    pendingCmp a b = (pendingCmp b a).swap := by
  unfold pendingCmp strCmp
  rw [natCmp_swap a.timestamp_ns b.timestamp_ns,
    natCmp_swap a.ingest_order b.ingest_order,
    listNatCmp_swap (strBytes a.symbol) (strBytes b.symbol),
    listNatCmp_swap (strBytes a.venue) (strBytes b.venue)]
  cases natCmp b.timestamp_ns a.timestamp_ns <;>
    cases natCmp b.ingest_order a.ingest_order <;>
    cases listNatCmp (strBytes b.symbol) (strBytes a.symbol) <;>
    cases listNatCmp (strBytes b.venue) (strBytes a.venue) <;> rfl

/-- The comparator order is exactly the lexicographic order on the key
`(timestamp_ns, ingest_order, symbol, venue)`, with strings compared
byte-lexicographically. -/
theorem pendingLe_lex_iff (a b : PendingEvent) :
    pendingLe a b ↔
      (a.timestamp_ns < b.timestamp_ns ∨
        (a.timestamp_ns = b.timestamp_ns ∧
          (a.ingest_order < b.ingest_order ∨
            (a.ingest_order = b.ingest_order ∧
              (List.Lex (· < ·) (strBytes a.symbol) (strBytes b.symbol) ∨
                (strBytes a.symbol = strBytes b.symbol ∧
                  (List.Lex (· < ·) (strBytes a.venue) (strBytes b.venue) ∨
                    strBytes a.venue = strBytes b.venue))))))) := by
  unfold pendingLe pendingCmp strCmp
  rcases h1 : natCmp a.timestamp_ns b.timestamp_ns with _ | _ | _
  · have ht := (natCmp_lt_iff _ _).mp h1
    exact iff_of_true (fun hn => nomatch hn) (Or.inl ht)
  · have ht := (natCmp_eq_iff _ _).mp h1
    simp only [Ordering.then, ht, lt_self_iff_false, false_or, eq_self_iff_true, true_and]
    rcases h2 : natCmp a.ingest_order b.ingest_order with _ | _ | _
    · have hio := (natCmp_lt_iff _ _).mp h2
      exact iff_of_true (fun hn => nomatch hn) (Or.inl hio)
    · have hio := (natCmp_eq_iff _ _).mp h2
      simp only [Ordering.then, hio, lt_self_iff_false, false_or, eq_self_iff_true, true_and]
      rcases h3 : listNatCmp (strBytes a.symbol) (strBytes b.symbol) with _ | _ | _
      · have hs := (listNatCmp_lt_iff _ _).mp h3
        exact iff_of_true (fun hn => nomatch hn) (Or.inl hs)
      · have hs := (listNatCmp_eq_iff _ _).mp h3
        have hsirr : ∀ bs : List Nat, ¬ List.Lex (· < ·) bs bs := fun bs => irrefl_of _ _
        simp only [Ordering.then, hs, hsirr, false_or, eq_self_iff_true, true_and]
        rcases h4 : listNatCmp (strBytes a.venue) (strBytes b.venue) with _ | _ | _
        · have hv := (listNatCmp_lt_iff _ _).mp h4
          exact iff_of_true (fun hn => nomatch hn) (Or.inl hv)
        · have hv := (listNatCmp_eq_iff _ _).mp h4
          exact iff_of_true (fun hn => nomatch hn) (Or.inr hv)
        · have hv := (listNatCmp_gt_iff _ _).mp h4
          refine iff_of_false (fun hn => hn rfl) ?_
          rintro (h' | h')
          · exact asymm h' hv
          · rw [h'] at hv; exact irrefl_of _ _ hv
      · have hs := (listNatCmp_gt_iff _ _).mp h3
        refine iff_of_false (fun hn => hn rfl) ?_
        rintro (h' | ⟨h', _⟩)
        · exact asymm h' hs
        · rw [h'] at hs; exact irrefl_of _ _ hs
    · have hio := (natCmp_gt_iff _ _).mp h2
      refine iff_of_false (fun hn => hn rfl) ?_
      rintro (h' | ⟨h', _⟩) <;> omega
  · have ht := (natCmp_gt_iff _ _).mp h1
    refine iff_of_false (fun hn => hn rfl) ?_
    rintro (h' | ⟨h', _⟩) <;> omega

theorem pendingLe_total (a b : PendingEvent) : pendingLe a b ∨ pendingLe b a := by
  by_cases h : pendingCmp a b = Ordering.gt
  · right
    intro hn
    rw [pendingCmp_swap b a, h] at hn
    exact nomatch hn
  · exact Or.inl h

theorem pendingLe_trans (a b c : PendingEvent) :
    pendingLe a b → pendingLe b c → pendingLe a c := by
  intro hab hbc
  rw [pendingLe_lex_iff] at hab hbc ⊢
  rcases hab with h1 | ⟨e1, hab⟩
  · rcases hbc with h2 | ⟨e2, _⟩ <;> exact Or.inl (by omega)
  · rcases hbc with h2 | ⟨e2, hbc⟩
    · exact Or.inl (by omega)
    · refine Or.inr ⟨by omega, ?_⟩
      rcases hab with h1 | ⟨f1, hab⟩
      · rcases hbc with h2 | ⟨f2, _⟩ <;> exact Or.inl (by omega)
      · rcases hbc with h2 | ⟨f2, hbc⟩
        · exact Or.inl (by omega)
        · refine Or.inr ⟨by omega, ?_⟩
          rcases hab with h1 | ⟨g1, hab⟩
          · rcases hbc with h2 | ⟨g2, _⟩
            · exact Or.inl (IsTrans.trans _ _ _ h1 h2)
            · exact Or.inl (by rw [← g2]; exact h1)
          · rcases hbc with h2 | ⟨g2, hbc⟩
            · exact Or.inl (by rw [g1]; exact h2)
            · refine Or.inr ⟨g1.trans g2, ?_⟩
              rcases hab with h1 | h1
              · rcases hbc with h2 | h2
                · exact Or.inl (IsTrans.trans _ _ _ h1 h2)
                · exact Or.inl (by rw [← h2]; exact h1)
              · rcases hbc with h2 | h2
                · exact Or.inl (by rw [h1]; exact h2)
                · exact Or.inr (h1.trans h2)

/-- C1: for every input vector of pending events, `assign_sequences`
sorts by the lexicographic key (timestamp_ns, ingest_order, symbol,
venue) ascending (`pendingLe` is exactly that lexicographic order, first
conjunct), assigns sequence numbers 1..N in that final order (so the
multiset of sequence values is {1, ..., N}), leaves every payload (and
timestamp, venue, symbol) unchanged, and sets `event_type` to the tag of
the payload. -/
theorem c1_assign_sequences_spec :
    (∀ a b : PendingEvent, pendingLe a b ↔
      (a.timestamp_ns < b.timestamp_ns ∨
        (a.timestamp_ns = b.timestamp_ns ∧
          (a.ingest_order < b.ingest_order ∨
            (a.ingest_order = b.ingest_order ∧
              (List.Lex (· < ·) (strBytes a.symbol) (strBytes b.symbol) ∨
                (strBytes a.symbol = strBytes b.symbol ∧
                  (List.Lex (· < ·) (strBytes a.venue) (strBytes b.venue) ∨
                    strBytes a.venue = strBytes b.venue)))))))) ∧
    ∀ l : List PendingEvent,
      ((assign_sequences l).map Event.sequence = List.range' 1 l.length) ∧
      (∃ s : List PendingEvent, l.Perm s ∧ List.Sorted pendingLe s ∧
        (assign_sequences l).map
            (fun e => (e.timestamp_ns, e.venue, e.symbol, e.payload)) =
          s.map (fun p => (p.timestamp_ns, p.venue, p.symbol, p.payload))) ∧
      (∀ e ∈ assign_sequences l, e.event_type = payloadTag e.payload) := by
  refine ⟨pendingLe_lex_iff, fun l => ⟨?_, ?_, ?_⟩⟩
  · simp only [assign_sequences, List.map_map]
    rw [show ((fun e : Event => e.sequence) ∘ fun ie : Nat × PendingEvent =>
        ie.2.into_event (ie.1 + 1)) = ((fun i => i + 1) ∘ Prod.fst) from rfl]
    rw [← List.map_map, List.enum_map_fst, List.length_insertionSort,
      List.range'_eq_map_range]
    exact List.map_congr_left fun x _ => Nat.add_comm x 1
  · refine ⟨List.insertionSort pendingLe l,
      (List.perm_insertionSort pendingLe l).symm, ?_, ?_⟩
    · haveI : IsTotal PendingEvent pendingLe := ⟨pendingLe_total⟩
      haveI : IsTrans PendingEvent pendingLe := ⟨pendingLe_trans⟩
      exact List.sorted_insertionSort pendingLe l
    · simp only [assign_sequences, List.map_map]
      rw [show ((fun e : Event => (e.timestamp_ns, e.venue, e.symbol, e.payload)) ∘
          fun ie : Nat × PendingEvent => ie.2.into_event (ie.1 + 1)) =
          ((fun p : PendingEvent => (p.timestamp_ns, p.venue, p.symbol, p.payload)) ∘
            Prod.snd) from rfl]
      rw [← List.map_map, List.enum_map_snd]
  · intro e he
    simp only [assign_sequences, List.mem_map] at he
    obtain ⟨⟨i, p⟩, _, rfl⟩ := he
    rfl

/-! ## Replay pacing and config merge -/

theorem pacingTrace_max_speed (config : ReplayConfig) (accept : Nat)
    (h : config.max_speed = true) :
    ∀ (events : List Event) (firstTs : Option Nat) (sent : Nat),
      pacingTrace config accept events firstTs sent =
        (events.take (accept - sent)).map PacingAction.send
  | [], _, _ => by simp [pacingTrace]
  | e :: rest, firstTs, sent => by
    rw [pacingTrace]
    simp only [h, if_true, true_or]
    by_cases hs : sent < accept
    · rw [if_pos hs, pacingTrace_max_speed config accept h rest firstTs (sent + 1)]
      have htake : accept - sent = (accept - (sent + 1)) + 1 := by omega
      rw [htake, List.take_succ_cons, List.map_cons, List.nil_append]
    · rw [if_neg hs]
      have htake : accept - sent = 0 := by omega
      rw [htake, List.take_zero, List.map_nil]

/-- C9: whenever `max_speed` is set, `stream_with_pacing` never waits -
its trace contains no scheduler yield and no wall-clock sleep, regardless
of `step_mode` and `speed` - and is exactly the in-order sends of the
events the sink accepts before closing (all of them on exhaustion). -/
theorem c9_max_speed_never_waits (events : List Event) (config : ReplayConfig)
    (accept : Nat) (h : config.max_speed = true) :
    stream_with_pacing events config accept =
      (events.take accept).map PacingAction.send := by
  unfold stream_with_pacing
  rw [pacingTrace_max_speed config accept h events none 0, Nat.sub_zero]

theorem c9_max_speed_never_waits_witness :
    stream_with_pacing
        [Event.trade 100 1 ("X") ("AAPL") 5 7, Event.trade 200 2 ("X") ("AAPL") 6 8]
        ⟨none, none, (3 : ℚ), true, true⟩ 1 =
      [PacingAction.send (Event.trade 100 1 ("X") ("AAPL") 5 7)] := by
  rw [c9_max_speed_never_waits _ _ _ (by rfl)]
  rfl

/-- C8 counterexample: the claim says every non-zero numeric request field
overrides the default, but a negative (hence non-zero) `speed` request is
replaced by the server default: with default speed 2 and request speed -1
the merged speed is 2, not -1. -/
theorem c8_counterexample :
    (-1 : ℚ) ≠ 0 ∧
    (merged_config ⟨none, none, (2 : ℚ), false, false⟩
        ⟨0, 0, (-1 : ℚ), false, false⟩).speed = 2 ∧
    (merged_config ⟨none, none, (2 : ℚ), false, false⟩
        ⟨0, 0, (-1 : ℚ), false, false⟩).speed ≠ (-1 : ℚ) := by
  refine ⟨by decide, ?_, ?_⟩ <;> · simp only [merged_config]; decide

/-- C8 (amended): the merged replay config takes the server default for
`from_ns`/`to_ns` exactly when the request value is the protocol-default
zero and the request value otherwise; `speed` takes the default whenever
the requested speed is non-positive (not only at zero) and the request
value when positive; each boolean field is the logical OR of request and
default. -/
theorem c8_merged_config_spec (d : ReplayConfig) (r : StreamRequest) :
    (r.from_ns = 0 → (merged_config d r).from_ns = d.from_ns) ∧
    (r.from_ns ≠ 0 → (merged_config d r).from_ns = some r.from_ns) ∧
    (r.to_ns = 0 → (merged_config d r).to_ns = d.to_ns) ∧
    (r.to_ns ≠ 0 → (merged_config d r).to_ns = some r.to_ns) ∧
    (r.speed ≤ 0 → (merged_config d r).speed = d.speed) ∧
    (0 < r.speed → (merged_config d r).speed = r.speed) ∧
    (merged_config d r).max_speed = (d.max_speed || r.max_speed) ∧
    (merged_config d r).step_mode = (d.step_mode || r.step_mode) := by
  refine ⟨fun h => ?_, fun h => ?_, fun h => ?_, fun h => ?_,
    fun h => ?_, fun h => ?_, rfl, rfl⟩ <;>
    simp [merged_config, h, not_le.mpr]

theorem c8_merged_config_spec_witness :
    (merged_config ⟨some 7, none, (2 : ℚ), false, false⟩
        ⟨0, 9, (-1 : ℚ), true, false⟩).from_ns = some 7 ∧
    (merged_config ⟨some 7, none, (2 : ℚ), false, false⟩
        ⟨0, 9, (-1 : ℚ), true, false⟩).to_ns = some 9 ∧
    (merged_config ⟨some 7, none, (2 : ℚ), false, false⟩
        ⟨0, 9, (-1 : ℚ), true, false⟩).speed = 2 ∧
    (merged_config ⟨some 7, none, (2 : ℚ), false, false⟩
        ⟨0, 9, (-1 : ℚ), true, false⟩).max_speed = true := by
  have h := c8_merged_config_spec ⟨some 7, none, (2 : ℚ), false, false⟩
    ⟨0, 9, (-1 : ℚ), true, false⟩
  exact ⟨h.1 (by decide), h.2.2.2.1 (by decide), h.2.2.2.2.1 (by decide),
    by rw [h.2.2.2.2.2.2.1]; rfl⟩

/-! ## Index lower-bound seek -/

theorem ppLoop_correct (p : IndexEntry → Bool) (l : List IndexEntry)
    (hdc : ∀ i j, i ≤ j → j < l.length → p (l.getD j default) = true →
      p (l.getD i default) = true) :
    ∀ (fuel left right : Nat), left ≤ right → right ≤ l.length →
      right - left ≤ fuel →
      (∀ i, i < left → p (l.getD i default) = true) →
      (∀ i, right ≤ i → i < l.length → p (l.getD i default) = false) →
      left ≤ ppLoop p l fuel left right ∧ ppLoop p l fuel left right ≤ right ∧
        ∀ i, i < l.length → (p (l.getD i default) = true ↔ i < ppLoop p l fuel left right) := by
  intro fuel
  induction fuel with
  | zero =>
    intro left right h1 h2 h3 h4 h5
    have hlr : left = right := by omega
    refine ⟨le_refl _, by rw [ppLoop]; omega, fun i hi => ?_⟩
    rw [ppLoop]
    by_cases hil : i < left
    · exact iff_of_true (h4 i hil) hil
    · exact iff_of_false (by rw [h5 i (by omega) hi]; exact Bool.false_ne_true) hil
  | succ fuel ih =>
    intro left right h1 h2 h3 h4 h5
    rw [ppLoop]
    by_cases hlr : left < right
    · rw [if_pos hlr]
      have hmlt : left + (right - left) / 2 < right := by omega
      have hmge : left ≤ left + (right - left) / 2 := by omega
      by_cases hp : p (l.getD (left + (right - left) / 2) default) = true
      · rw [if_pos hp]
        have h4' : ∀ i, i < left + (right - left) / 2 + 1 →
            p (l.getD i default) = true := by
          intro i hi
          exact hdc i (left + (right - left) / 2) (by omega) (by omega) hp
        have hres := ih (left + (right - left) / 2 + 1) right (by omega) h2
          (by omega) h4' h5
        exact ⟨by omega, hres.2.1, hres.2.2⟩
      · rw [if_neg hp]
        have hpf : p (l.getD (left + (right - left) / 2) default) = false := by
          revert hp; cases p (l.getD (left + (right - left) / 2) default) <;> simp
        have h5' : ∀ i, left + (right - left) / 2 ≤ i → i < l.length →
            p (l.getD i default) = false := by
          intro i hi hlen
          cases hpi : p (l.getD i default)
          · rfl
          · exact absurd (hdc (left + (right - left) / 2) i hi hlen hpi)
              (by rw [hpf]; exact Bool.false_ne_true)
        have hres := ih left (left + (right - left) / 2) (by omega) (by omega)
          (by omega) h4 h5'
        exact ⟨hres.1, by omega, hres.2.2⟩
    · rw [if_neg hlr]
      have hlr' : left = right := by omega
      refine ⟨le_refl _, by omega, fun i hi => ?_⟩
      by_cases hil : i < left
      · exact iff_of_true (h4 i hil) hil
      · exact iff_of_false (by rw [h5 i (by omega) hi]; exact Bool.false_ne_true) hil

theorem partitionPoint_correct (p : IndexEntry → Bool) (l : List IndexEntry)
    (hdc : ∀ i j, i ≤ j → j < l.length → p (l.getD j default) = true →
      p (l.getD i default) = true) :
    partitionPoint p l ≤ l.length ∧
      ∀ i, i < l.length → (p (l.getD i default) = true ↔ i < partitionPoint p l) := by
  have h := ppLoop_correct p l hdc l.length 0 l.length (by omega) (le_refl _)
    (by omega) (by omega) (by omega)
  exact ⟨h.2.1, h.2.2⟩

/-- C3: on a loaded index whose entries are sorted ascending by
timestamp, `seek_offset` returns none exactly when the index is empty,
returns the first entry's offset when `from_ns` precedes the first
timestamp, and otherwise the offset of the last entry whose timestamp is
≤ `from_ns`; in particular the stride-2 index built from four events at
timestamps 100..400 and offsets 0..300 has entries (100,0) and (300,200)
and seeks 50→0, 250→0, 350→200, 450→200. -/
theorem c3_seek_offset_spec (entries : List IndexEntry) (from_ns : Nat)
    (hsorted : entries.Pairwise (fun a b => a.timestamp_ns ≤ b.timestamp_ns)) :
    (seek_offset entries from_ns = none ↔ entries = []) ∧
    (∀ e0 rest, entries = e0 :: rest → from_ns < e0.timestamp_ns →
      seek_offset entries from_ns = some e0.byte_offset) ∧
    (∀ e0 rest, entries = e0 :: rest → e0.timestamp_ns ≤ from_ns →
      ∃ k, k < entries.length ∧
        seek_offset entries from_ns = some ((entries.getD k default).byte_offset) ∧
        (entries.getD k default).timestamp_ns ≤ from_ns ∧
        ∀ j, j < entries.length → (entries.getD j default).timestamp_ns ≤ from_ns →
          j ≤ k) ∧
    (maybeAddAll 2
        [(Event.trade 100 1 ("X") ("AAPL") 1 1, 0),
         (Event.trade 200 2 ("X") ("AAPL") 1 1, 100),
         (Event.trade 300 3 ("X") ("AAPL") 1 1, 200),
         (Event.trade 400 4 ("X") ("AAPL") 1 1, 300)] 0 =
        [⟨100, 1, 0⟩, ⟨300, 3, 200⟩] ∧
      seek_offset [⟨100, 1, 0⟩, ⟨300, 3, 200⟩] 50 = some 0 ∧
      seek_offset [⟨100, 1, 0⟩, ⟨300, 3, 200⟩] 250 = some 0 ∧
      seek_offset [⟨100, 1, 0⟩, ⟨300, 3, 200⟩] 350 = some 200 ∧
      seek_offset [⟨100, 1, 0⟩, ⟨300, 3, 200⟩] 450 = some 200) := by
  have hdc : ∀ i j, i ≤ j → j < entries.length →
      (fun e => decide (e.timestamp_ns ≤ from_ns)) (entries.getD j default) = true →
      (fun e => decide (e.timestamp_ns ≤ from_ns)) (entries.getD i default) = true := by
    intro i j hij hj hpj
    simp only [decide_eq_true_eq] at hpj ⊢
    rcases eq_or_lt_of_le hij with rfl | hlt
    · exact hpj
    · have hg := List.pairwise_iff_get.mp hsorted ⟨i, by omega⟩ ⟨j, hj⟩ hlt
      rw [List.get_eq_getElem, List.get_eq_getElem] at hg
      rw [List.getD_eq_getElem _ _ hj] at hpj
      rw [List.getD_eq_getElem _ _ (by omega : i < entries.length)]
      simp only at hg
      omega
  have hpp := partitionPoint_correct
    (fun e => decide (e.timestamp_ns ≤ from_ns)) entries hdc
  refine ⟨?_, ?_, ?_, by decide, by decide, by decide, by decide, by decide⟩
  · cases entries with
    | nil => simp [seek_offset]
    | cons e0 rest =>
      simp only [seek_offset, List.isEmpty_cons, Bool.false_eq_true, if_false]
      split <;> simp
  · rintro e0 rest rfl hlt
    have h0 : ¬ (0 < partitionPoint
        (fun e => decide (e.timestamp_ns ≤ from_ns)) (e0 :: rest)) := by
      intro h0
      have hiff := (hpp.2 0 (by simp)).mpr h0
      simp only [List.getD_cons_zero, decide_eq_true_eq] at hiff
      omega
    simp only [seek_offset, List.isEmpty_cons, Bool.false_eq_true, if_false,
      if_pos (by omega : partitionPoint
        (fun e => decide (e.timestamp_ns ≤ from_ns)) (e0 :: rest) = 0),
      List.getD_cons_zero]
  · rintro e0 rest rfl hle
    have h0 : 0 < partitionPoint
        (fun e => decide (e.timestamp_ns ≤ from_ns)) (e0 :: rest) := by
      refine (hpp.2 0 (by simp)).mp ?_
      simp only [List.getD_cons_zero, decide_eq_true_eq]
      exact hle
    have hlen : partitionPoint
        (fun e => decide (e.timestamp_ns ≤ from_ns)) (e0 :: rest) ≤
        (e0 :: rest).length := hpp.1
    refine ⟨partitionPoint (fun e => decide (e.timestamp_ns ≤ from_ns)) (e0 :: rest) - 1,
      by simp at hlen ⊢; omega, ?_, ?_, ?_⟩
    · simp only [seek_offset, List.isEmpty_cons, Bool.false_eq_true, if_false,
        if_neg (by omega : ¬ partitionPoint
          (fun e => decide (e.timestamp_ns ≤ from_ns)) (e0 :: rest) = 0)]
    · have hiff := (hpp.2 (partitionPoint
        (fun e => decide (e.timestamp_ns ≤ from_ns)) (e0 :: rest) - 1)
        (by simp at hlen ⊢; omega)).mpr (by omega)
      simpa only [decide_eq_true_eq] using hiff
    · intro j hj hts
      have hiff := (hpp.2 j hj).mp (by simp only [decide_eq_true_eq]; exact hts)
      omega

theorem c3_seek_offset_spec_witness :
    seek_offset [⟨100, 1, 0⟩, ⟨300, 3, 200⟩] 50 = some 0 := by
  have h := c3_seek_offset_spec [⟨100, 1, 0⟩, ⟨300, 3, 200⟩] 50 (by decide)
  exact h.2.1 ⟨100, 1, 0⟩ [⟨300, 3, 200⟩] rfl (by decide)

/-! ## Event-log reader behaviour -/

/-- C2: `next_record` returns `Ok(None)` exactly when the 4-byte length
prefix hits end-of-file; an end-of-file inside the CRC field or the
payload is an error, not `None`; and a stored CRC that differs from the
CRC-32 of the payload bytes fails with `CrcMismatch` carrying the byte
offset at which the record starts. -/
theorem c2_next_record_spec (bytes : List Nat) (pos : Nat) :
    (next_record bytes pos = .ok none ↔ bytes.length < pos + 4) ∧
    (pos + 4 ≤ bytes.length → bytes.length < pos + 8 →
      next_record bytes pos = .error .ioEof) ∧
    (pos + 8 ≤ bytes.length →
      bytes.length < pos + 8 + leNat (recordSlice bytes pos 4) →
      next_record bytes pos = .error .ioEof) ∧
    (pos + 8 + leNat (recordSlice bytes pos 4) ≤ bytes.length →
      crc32 (recordSlice bytes (pos + 8) (leNat (recordSlice bytes pos 4))) ≠
        leNat (recordSlice bytes (pos + 4) 4) →
      next_record bytes pos = .error (.crcMismatch pos)) := by
  refine ⟨⟨?_, fun h => by rw [next_record, if_pos h]⟩,
    fun ha hb => ?_, fun ha hb => ?_, fun ha hb => ?_⟩
  · intro h
    by_contra hlen
    simp only [next_record, if_neg hlen] at h
    by_cases h2 : bytes.length < pos + 8
    · rw [if_pos h2] at h
      exact absurd h (by simp)
    · rw [if_neg h2] at h
      by_cases h3 : bytes.length < pos + 8 + leNat (recordSlice bytes pos 4)
      · rw [if_pos h3] at h
        exact absurd h (by simp)
      · rw [if_neg h3] at h
        by_cases h4 : crc32 (recordSlice bytes (pos + 8) (leNat (recordSlice bytes pos 4))) ≠
            leNat (recordSlice bytes (pos + 4) 4)
        · rw [if_pos h4] at h
          exact absurd h (by simp)
        · rw [if_neg h4] at h
          cases hdec : decodeEvent (recordSlice bytes (pos + 8)
              (leNat (recordSlice bytes pos 4))) with
          | error e => rw [hdec] at h; exact absurd h (by simp)
          | ok ev => rw [hdec] at h; exact absurd h (by simp)
  · simp only [next_record, if_neg (by omega : ¬ bytes.length < pos + 4)]
    rw [if_pos hb]
  · simp only [next_record, if_neg (by omega : ¬ bytes.length < pos + 4),
      if_neg (by omega : ¬ bytes.length < pos + 8)]
    rw [if_pos hb]
  · simp only [next_record, if_neg (by omega : ¬ bytes.length < pos + 4),
      if_neg (by omega : ¬ bytes.length < pos + 8),
      if_neg (by omega : ¬ bytes.length < pos + 8 + leNat (recordSlice bytes pos 4))]
    rw [if_pos hb]

set_option maxRecDepth 4000 in
theorem c2_next_record_spec_witness :
    next_record [1, 0, 0, 0, 0, 0, 0, 0, 5] 0 = .error (.crcMismatch 0) := by
  have h := c2_next_record_spec [1, 0, 0, 0, 0, 0, 0, 0, 5] 0
  exact h.2.2.2 (by decide) (by decide)

set_option maxRecDepth 10000 in
/-- C7 counterexample: a log file whose header carries schema hash 0,
which differs from `crc32("event_v1")`, still opens successfully - the
reader does not refuse to proceed. -/
theorem c7_counterexample :
    openLog (strBytes ("MDELOG01") ++
        [1, 0, 0, 0, 0, 0, 0, 0, 0, 0, 0, 0, 0, 0]) =
      .ok ⟨1, 0, [], 22⟩ ∧
    (0 : Nat) ≠ default_schema_hash := by
  constructor
  · rfl
  · decide

/-- C7 (amended): `EventLogReader::open` validates only the magic and the
version; the schema hash is read into the header but never compared
against `default_schema_hash`, so a header carrying any 64-bit value
opens successfully and reports that value. -/
theorem c7_open_accepts_any_schema_hash (h : Nat) (hlt : h < 2 ^ 64) :
    openLog (strBytes ("MDELOG01") ++ [1, 0] ++ leBytes 8 h ++ [0, 0, 0, 0]) =
      .ok ⟨1, h, [], 22⟩ := by
  have hm : strBytes ("MDELOG01") = [77, 68, 69, 76, 79, 71, 48, 49] := by decide
  have hM : logMagic = [77, 68, 69, 76, 79, 71, 48, 49] := by decide
  rw [hm]
  simp only [leBytes, List.cons_append, List.nil_append]
  simp only [openLog, recordSlice, leNat, hM, readSymbols, List.length_cons,
    List.length_nil, List.drop, List.take, List.foldr]
  norm_num
  omega

theorem c7_open_accepts_any_schema_hash_witness :
    openLog (strBytes ("MDELOG01") ++ [1, 0] ++ leBytes 8 3735928559 ++
        [0, 0, 0, 0]) =
      .ok ⟨1, 3735928559, [], 22⟩ :=
  c7_open_accepts_any_schema_hash 3735928559 (by norm_num)

/-! ## Totality of the binary message decoder -/

theorem takeRP_eq (data : List Nat) (off len fo : Nat) :
    takeRP data off len fo = some (takeR data off len fo) := by
  unfold takeRP takeR sliceP
  by_cases h : data.length < off + len
  · rw [if_pos h, if_pos h]
  · rw [if_neg h, if_neg h, if_pos ⟨by omega, by omega⟩]
    simp [Nat.add_sub_cancel_left]

theorem takeR_ok_parts (data : List Nat) (off len fo : Nat) (bo : List Nat × Nat)
    (h : takeR data off len fo = .ok bo) : bo.1.length = len := by
  unfold takeR at h
  by_cases hb : data.length < off + len
  · rw [if_pos hb] at h; exact absurd h (by simp)
  · rw [if_neg hb] at h
    have : ((data.drop off).take len, off + len) = bo := by
      injection h
    rw [← this]
    simp [List.length_take, List.length_drop]
    omega

theorem readWidthP_eq (data : List Nat) (off len fo : Nat) :
    readWidthP data off len fo = some (takeR data off len fo) := by
  unfold readWidthP
  rw [takeRP_eq]
  cases h : takeR data off len fo with
  | error e => rfl
  | ok bo =>
    have hl := takeR_ok_parts data off len fo bo h
    simp [pstep, widthCheck, hl]

theorem readSymbolP_eq (data : List Nat) (off fo : Nat) :
    readSymbolP data off fo = some (readSymbolR data off fo) := by
  unfold readSymbolP readSymbolR
  rw [takeRP_eq]
  cases h : takeR data off 8 fo with
  | error e => rfl
  | ok bo =>
    simp only [pstep]
    by_cases ha : bo.1.all (fun b => decide (b < 128)) = true
    · rw [if_pos ha, if_pos ha]
    · rw [if_neg ha, if_neg ha]

/-- C10: `parse_message` is total on arbitrary input: for every byte
sequence the panic-instrumented embedding (`parse_message_checked`, whose
`none` marks an out-of-bounds slice or a failed width conversion) returns
`some` of the plain result - every input, including empty, short,
oversized and non-ASCII-symbol payloads, yields either a parsed message
or an `ItchParseError` carrying a field offset, and no panic. -/
theorem c10_parse_message_total (payload : List Nat) :
    parse_message_checked payload = some (parse_message payload) := by
  unfold parse_message_checked parse_message
  rw [readWidthP_eq]
  cases takeR payload 0 8 0 with
  | error e => rfl
  | ok ts =>
    obtain ⟨tsBytes, o1⟩ := ts
    simp only [pstep]
    rw [readWidthP_eq]
    cases takeR payload o1 4 8 with
    | error e => rfl
    | ok ty =>
      obtain ⟨tyBytes, o2⟩ := ty
      simp only [pstep]
      by_cases h1 : beNat tyBytes = 1
      · simp only [if_pos h1]
        rw [readSymbolP_eq]
        cases readSymbolR payload o2 12 with
        | error e => rfl
        | ok sym =>
          obtain ⟨symbol, o3⟩ := sym
          simp only [pstep]
          rw [readWidthP_eq]
          cases takeR payload o3 1 20 with
          | error e => rfl
          | ok sb =>
            obtain ⟨sideBytes, o4⟩ := sb
            simp only [pstep]
            by_cases h2 : sideBytes.getD 0 0 = 0 ∨ sideBytes.getD 0 0 = 1
            · simp only [if_pos h2]
              rw [readWidthP_eq]
              cases takeR payload o4 8 21 with
              | error e => rfl
              | ok px =>
                obtain ⟨pxBytes, o5⟩ := px
                simp only [pstep]
                rw [readWidthP_eq]
                cases takeR payload o5 8 29 with
                | error e => rfl
                | ok sz =>
                  obtain ⟨szBytes, o6⟩ := sz
                  simp only [pstep]
                  split <;> rfl
            · simp only [if_neg h2]
      · simp only [if_neg h1]
        by_cases h2 : beNat tyBytes = 2
        · simp only [if_pos h2]
          rw [readSymbolP_eq]
          cases readSymbolR payload o2 12 with
          | error e => rfl
          | ok sym =>
            obtain ⟨symbol, o3⟩ := sym
            simp only [pstep]
            rw [readWidthP_eq]
            cases takeR payload o3 8 20 with
            | error e => rfl
            | ok px =>
              obtain ⟨pxBytes, o4⟩ := px
              simp only [pstep]
              rw [readWidthP_eq]
              cases takeR payload o4 8 28 with
              | error e => rfl
              | ok sz =>
                obtain ⟨szBytes, o5⟩ := sz
                simp only [pstep]
                split <;> rfl
        · simp only [if_neg h2]

/-! ## PCAP ingest order -/

theorem ingestLoop_orders (venue : String) :
    ∀ (frames : List (List Nat)) (pi io : Nat) (books : List (String × TopBook)),
      ((ingestLoop venue frames pi io books).1.map (fun p => p.ingest_order) =
        List.range' (io + 1) (frames.countP frameParses)) ∧
      (ingestLoop venue frames pi io books).2.length =
        frames.countP (fun f => ! frameParses f)
  | [], _, _, _ => by simp [ingestLoop]
  | frame :: rest, pi, io, books => by
    rw [ingestLoop]
    cases hex : extract_udp_payload frame with
    | error eoff =>
      obtain ⟨off, detail⟩ := eoff
      have hfp : frameParses frame = false := by
        unfold frameParses; rw [hex]
      have ih := ingestLoop_orders venue rest (pi + 1) io books
      simp [List.countP_cons, hfp, ih.1, ih.2]
    | ok payload =>
      dsimp only
      cases hpm : parse_message payload with
      | error err =>
        have hfp : frameParses frame = false := by
          unfold frameParses; rw [hex]; dsimp only; rw [hpm]; rfl
        have ih := ingestLoop_orders venue rest (pi + 1) io books
        simp [List.countP_cons, hfp, ih.1, ih.2]
      | ok msg =>
        have hfp : frameParses frame = true := by
          unfold frameParses; rw [hex]; dsimp only; rw [hpm]; rfl
        cases msg with
        | trade timestamp_ns symbol price_i64 size_i64 =>
          have ih := ingestLoop_orders venue rest (pi + 1) (io + 1) books
          simp [List.countP_cons, hfp, ih.1, ih.2, List.range']
        | addOrder timestamp_ns symbol side price_i64 size_i64 =>
          cases side with
          | bid =>
            have ih := ingestLoop_orders venue rest (pi + 1) (io + 1)
              (bookSet books symbol
                { bookGet books symbol with bid_px := price_i64, bid_sz := size_i64 })
            simp [List.countP_cons, hfp, ih.1, ih.2, List.range']
          | ask =>
            have ih := ingestLoop_orders venue rest (pi + 1) (io + 1)
              (bookSet books symbol
                { bookGet books symbol with ask_px := price_i64, ask_sz := size_i64 })
            simp [List.countP_cons, hfp, ih.1, ih.2, List.range']

/-- C5 (amended): in pcap ingest, `ingest_order` is the 1-based index of
the successfully parsed message within the file: the first successfully
parsed message receives `ingest_order` 1 (the counter is incremented
before it is stored), each subsequent parsed message the next integer,
and frames that fail extraction or parsing are recorded as issues and do
not advance the counter. -/
theorem c5_ingest_order_one_based (frames : List (List Nat)) (venue : String) :
    ((ingestLoop venue frames 0 0 []).1.map (fun p => p.ingest_order) =
      List.range' 1 (frames.countP frameParses)) ∧
    ((ingestLoop venue frames 0 0 []).2.length =
      frames.countP (fun f => ! frameParses f)) ∧
    (ingest_pcap frames venue).issues = (ingestLoop venue frames 0 0 []).2 := by
  have h := ingestLoop_orders venue frames 0 0 []
  exact ⟨h.1, h.2, rfl⟩

set_option maxRecDepth 8000 in
/-- C5 counterexample: a capture holding a single well-formed frame (one
valid UDP trade message) yields one pending event whose `ingest_order` is
1, not 0 as the claim states. -/
theorem c5_counterexample :
    ((ingestLoop ("X")
        [[0, 0, 0, 0, 0, 0, 0, 0, 0, 0, 0, 0, 8, 0,
          69, 0, 0, 0, 0, 0, 0, 0, 64, 17, 0, 0, 0, 0, 0, 0, 0, 0, 0, 0,
          0, 0, 0, 0, 0, 44, 0, 0,
          0, 0, 0, 0, 0, 0, 0, 100,
          0, 0, 0, 2,
          65, 65, 80, 76, 32, 32, 32, 32,
          0, 0, 0, 0, 0, 0, 0, 5,
          0, 0, 0, 0, 0, 0, 0, 7]] 0 0 []).1.map (fun p => p.ingest_order)) =
      [1] ∧ (1 : Nat) ≠ 0 := by
  exact ⟨by decide, by decide⟩

/-! ## CSV variant C type matching -/

set_option maxRecDepth 8000 in
/-- C6 counterexample: the `type` field is not matched case-insensitively:
a variant-C row whose type reads `tRaDe` does not parse as a trade - it
raises the unknown-row-type parse error naming row 1. -/
theorem c6_counterexample :
    parse_csv_c
        [⟨("1700000000000"), ("AAPL"), ("tRaDe"), ("1.00"), ("5"),
          (""), (""), (""), ("")⟩] ("X") ⟨⟨1, 2⟩, []⟩ =
      .error (.parse ("unknown row type " ++ sqch ++ "tRaDe" ++ sqch ++
        " at row 1")) := by
  rfl

/-- C6 (amended): `parse_csv_c` matches the `type` field against the six
exact strings of the Rust match arms - `trade`, `Trade`, `TRADE` select
the trade branch and `quote`, `Quote`, `QUOTE` the quote branch - and any
other value (including mixed capitalizations such as `tRaDe`) raises a
parse error naming the row. -/
theorem c6_csv_c_type_match (row : RowC) (venue : String) (ticks : TickTable)
    (ts : Nat) (hts : parseMixedTsNs row.timestamp = .ok ts) :
    (row.rtype ≠ "trade" → row.rtype ≠ "Trade" → row.rtype ≠ "TRADE" →
      row.rtype ≠ "quote" → row.rtype ≠ "Quote" → row.rtype ≠ "QUOTE" →
      parse_csv_c [row] venue ticks =
        .error (.parse (unknownRowTypeMsg row.rtype 0))) ∧
    (∀ p sz, (row.rtype = "trade" ∨ row.rtype = "Trade" ∨ row.rtype = "TRADE") →
      ticks.price_str_to_ticks row.symbol row.price = .ok p →
      parseI64OrZero row.size = .ok sz →
      parse_csv_c [row] venue ticks =
        .ok [⟨ts, venue, row.symbol, .trade p sz, 0⟩]) ∧
    (∀ bp ap bsz asz,
      (row.rtype = "quote" ∨ row.rtype = "Quote" ∨ row.rtype = "QUOTE") →
      ticks.price_str_to_ticks row.symbol row.bid_px = .ok bp →
      ticks.price_str_to_ticks row.symbol row.ask_px = .ok ap →
      parseI64OrZero row.bid_sz = .ok bsz →
      parseI64OrZero row.ask_sz = .ok asz →
      parse_csv_c [row] venue ticks =
        .ok [⟨ts, venue, row.symbol, .quote bp bsz ap asz, 0⟩]) := by
  refine ⟨fun h1 h2 h3 h4 h5 h6 => ?_, fun p sz hor hp hsz => ?_,
    fun bp ap bsz asz hor hbp hap hbs has => ?_⟩
  · simp only [parse_csv_c, parseCsvCFrom, hts]
    rw [if_neg (by simp [h1, h2, h3]), if_neg (by simp [h4, h5, h6])]
  · simp only [parse_csv_c, parseCsvCFrom, hts]
    rw [if_pos hor, hp, hsz]
  · have hnt : ¬ (row.rtype = "trade" ∨ row.rtype = "Trade" ∨ row.rtype = "TRADE") := by
      rcases hor with h | h | h <;> rw [h] <;> decide
    simp only [parse_csv_c, parseCsvCFrom, hts]
    rw [if_neg hnt, if_pos hor, hbp, hap, hbs, has]

set_option maxRecDepth 8000 in
theorem c6_csv_c_type_match_witness :
    parse_csv_c
        [⟨("1700000000000"), ("AAPL"), ("Trade"), ("1.00"), ("5"),
          (""), (""), (""), ("")⟩] ("X") ⟨⟨1, 2⟩, []⟩ =
      .ok [⟨1700000000000000000, ("X"), ("AAPL"), .trade 100 5, 0⟩] := by
  have h := c6_csv_c_type_match
    ⟨("1700000000000"), ("AAPL"), ("Trade"), ("1.00"), ("5"),
      (""), (""), (""), ("")⟩ ("X") ⟨⟨1, 2⟩, []⟩ 1700000000000000000 (by rfl)
  exact h.2.1 100 5 (Or.inr (Or.inl rfl)) (by rfl) (by rfl)

/-! ## Tick rounding -/

theorem roundHalfAwayND_eq_roundQ (a b : Int) (hb : 0 < b) :
    roundHalfAwayND a b = roundQ ((a : ℚ) / (b : ℚ)) := by
  have hbq : (0 : ℚ) < (b : ℚ) := by exact_mod_cast hb
  have e2 : ((2 * b.natAbs : ℕ) : ℚ) = 2 * (b : ℚ) := by
    push_cast [Int.cast_natAbs]
    rw [abs_of_nonneg hbq.le]
  rcases le_or_lt 0 a with ha | ha
  · have haq : (0 : ℚ) ≤ (a : ℚ) / (b : ℚ) :=
      div_nonneg (by exact_mod_cast ha) hbq.le
    rw [roundQ, if_pos haq]
    unfold roundHalfAwayND
    rw [if_neg (by omega)]
    have e1 : ((2 * a.natAbs + b.natAbs : ℕ) : ℚ) = 2 * (a : ℚ) + (b : ℚ) := by
      push_cast [Int.cast_natAbs]
      rw [abs_of_nonneg (by exact_mod_cast ha : (0 : ℚ) ≤ (a : ℚ)),
        abs_of_nonneg hbq.le]
    have key : (a : ℚ) / (b : ℚ) + 1 / 2 =
        ((2 * a.natAbs + b.natAbs : ℕ) : ℚ) / ((2 * b.natAbs : ℕ) : ℚ) := by
      rw [e1, e2]
      field_simp
      ring
    rw [key, Rat.floor_natCast_div_natCast]
    exact Int.ofNat_div _ _
  · have haq : (a : ℚ) / (b : ℚ) < 0 :=
      div_neg_of_neg_of_pos (by exact_mod_cast ha) hbq
    rw [roundQ, if_neg (not_le.mpr haq)]
    unfold roundHalfAwayND
    rw [if_pos ha]
    congr 1
    have e1 : ((2 * a.natAbs + b.natAbs : ℕ) : ℚ) = 2 * (-(a : ℚ)) + (b : ℚ) := by
      push_cast [Int.cast_natAbs]
      rw [abs_of_nonpos (by exact_mod_cast ha.le : (a : ℚ) ≤ 0),
        abs_of_nonneg hbq.le]
    have key : -((a : ℚ) / (b : ℚ)) + 1 / 2 =
        ((2 * a.natAbs + b.natAbs : ℕ) : ℚ) / ((2 * b.natAbs : ℕ) : ℚ) := by
      rw [e1, e2]
      field_simp
      ring
    rw [key, Rat.floor_natCast_div_natCast]
    exact Int.ofNat_div _ _

theorem roundQ_abs_le (q : ℚ) : |q - (roundQ q : ℚ)| ≤ 1 / 2 := by
  unfold roundQ
  by_cases h : (0 : ℚ) ≤ q
  · rw [if_pos h]
    have h1 := Int.floor_le (q + 1 / 2)
    have h2 := Int.lt_floor_add_one (q + 1 / 2)
    rw [abs_le]
    constructor <;> linarith
  · rw [if_neg h]
    have h1 := Int.floor_le (-q + 1 / 2)
    have h2 := Int.lt_floor_add_one (-q + 1 / 2)
    push_cast
    rw [abs_le]
    constructor <;> linarith

theorem roundQ_neg (q : ℚ) : roundQ (-q) = - roundQ q := by
  unfold roundQ
  rcases lt_trichotomy q 0 with h | rfl | h
  · rw [if_pos (by linarith), if_neg (not_le.mpr h), neg_neg]
  · norm_num
  · by_cases hz : (0 : ℚ) ≤ -q
    · exact absurd hz (by linarith)
    · rw [if_neg hz, if_pos h.le, neg_neg]

theorem roundQ_tie (q : ℚ) (h : |q - (roundQ q : ℚ)| = 1 / 2) :
    |(roundQ q : ℚ)| = |q| + 1 / 2 := by
  unfold roundQ at h ⊢
  by_cases h0 : (0 : ℚ) ≤ q
  · rw [if_pos h0] at h ⊢
    have h1 := Int.floor_le (q + 1 / 2)
    have h2 := Int.lt_floor_add_one (q + 1 / 2)
    have hq : q - (⌊q + 1 / 2⌋ : ℚ) = -(1 / 2) := by
      rcases abs_eq (by norm_num : (0 : ℚ) ≤ 1 / 2) |>.mp h with he | he
      · linarith
      · exact he
    have hfl : (⌊q + 1 / 2⌋ : ℚ) = q + 1 / 2 := by linarith
    rw [hfl, abs_of_nonneg h0, abs_of_nonneg (by linarith)]
  · rw [if_neg h0] at h ⊢
    have h1 := Int.floor_le (-q + 1 / 2)
    have h2 := Int.lt_floor_add_one (-q + 1 / 2)
    push_cast at h
    have hq : q + (⌊-q + 1 / 2⌋ : ℚ) = 1 / 2 := by
      rcases abs_eq (by norm_num : (0 : ℚ) ≤ 1 / 2) |>.mp h with he | he
      · linarith
      · linarith
    have hfl : (⌊-q + 1 / 2⌋ : ℚ) = -q + 1 / 2 := by linarith
    rw [Int.cast_neg, abs_neg,
      abs_of_nonneg (by linarith : (0 : ℚ) ≤ (⌊-q + 1 / 2⌋ : ℚ)), hfl,
      abs_of_nonpos (le_of_not_le h0)]

set_option maxRecDepth 8000 in
/-- C4: `price_str_to_ticks` rounds the exact quotient price/tick with
midpoint-away-from-zero rounding (`roundQ`, which rounds to a nearest
integer, ties away from zero, negatives symmetric), and fails exactly on
a non-parsable decimal, a non-positive tick, or a result outside signed
64-bit; with tick 0.05, "1.025" maps to 21, "1.024" to 20 and "-1.025"
to -21. -/
theorem c4_price_str_to_ticks_spec (t : TickTable) :
    (∀ sym price, parseDecimal price = none →
      t.price_str_to_ticks sym price = .error (.invalidDecimal price)) ∧
    (∀ sym price d, parseDecimal price = some d → (t.tick_for sym).m ≤ 0 →
      t.price_str_to_ticks sym price = .error .nonPositiveTick) ∧
    (∀ sym price d, parseDecimal price = some d → 0 < (t.tick_for sym).m →
      (∀ n : ℤ, t.price_str_to_ticks sym price = .ok n ↔
        (n = roundQ (decToRat d / decToRat (t.tick_for sym)) ∧
          -(2 ^ 63) ≤ n ∧ n ≤ 2 ^ 63 - 1)) ∧
      (t.price_str_to_ticks sym price = .error .overflow ↔
        (roundQ (decToRat d / decToRat (t.tick_for sym)) < -(2 ^ 63) ∨
          2 ^ 63 - 1 < roundQ (decToRat d / decToRat (t.tick_for sym))))) ∧
    (∀ q : ℚ, |q - (roundQ q : ℚ)| ≤ 1 / 2 ∧ roundQ (-q) = - roundQ q ∧
      (|q - (roundQ q : ℚ)| = 1 / 2 → |(roundQ q : ℚ)| = |q| + 1 / 2)) ∧
    ((TickTable.mk ⟨5, 2⟩ []).price_str_to_ticks ("AAPL") ("1.025") = .ok 21 ∧
      (TickTable.mk ⟨5, 2⟩ []).price_str_to_ticks ("AAPL") ("1.024") = .ok 20 ∧
      (TickTable.mk ⟨5, 2⟩ []).price_str_to_ticks ("AAPL") ("-1.025") = .ok (-21)) := by
  refine ⟨fun sym price hpn => ?_, fun sym price d hp htm => ?_,
    fun sym price d hp ht => ?_,
    fun q => ⟨roundQ_abs_le q, roundQ_neg q, roundQ_tie q⟩,
    by rfl, by rfl, by rfl⟩
  · unfold TickTable.price_str_to_ticks
    rw [hpn]
  · unfold TickTable.price_str_to_ticks
    rw [hp]
    simp only [TickTable.price_to_ticks]
    rw [if_pos htm]
  · have hbpos : (0 : ℤ) < (t.tick_for sym).m * 10 ^ d.scale :=
      mul_pos ht (by positivity)
    have hr : roundHalfAwayND (d.m * 10 ^ (t.tick_for sym).scale)
        ((t.tick_for sym).m * 10 ^ d.scale) =
        roundQ (decToRat d / decToRat (t.tick_for sym)) := by
      rw [roundHalfAwayND_eq_roundQ _ _ hbpos]
      congr 1
      unfold decToRat
      have h10a : ((10 : ℚ)) ^ d.scale ≠ 0 := by positivity
      have h10b : ((10 : ℚ)) ^ (t.tick_for sym).scale ≠ 0 := by positivity
      have htm : (((t.tick_for sym).m : ℚ)) ≠ 0 := by exact_mod_cast ht.ne'
      push_cast
      field_simp
      ring_nf
      exact Or.inl trivial
    have hmain : t.price_str_to_ticks sym price =
        (if roundQ (decToRat d / decToRat (t.tick_for sym)) < -(2 ^ 63) ∨
            2 ^ 63 - 1 < roundQ (decToRat d / decToRat (t.tick_for sym)) then
          .error .overflow
        else .ok (roundQ (decToRat d / decToRat (t.tick_for sym)))) := by
      unfold TickTable.price_str_to_ticks
      rw [hp]
      simp only [TickTable.price_to_ticks]
      rw [if_neg (by omega), hr]
    constructor
    · intro n
      constructor
      · intro hok
        rw [hmain] at hok
        by_cases hov : roundQ (decToRat d / decToRat (t.tick_for sym)) < -(2 ^ 63) ∨
            2 ^ 63 - 1 < roundQ (decToRat d / decToRat (t.tick_for sym))
        · rw [if_pos hov] at hok
          exact absurd hok (by simp)
        · rw [if_neg hov] at hok
          push_neg at hov
          have hn : roundQ (decToRat d / decToRat (t.tick_for sym)) = n :=
            Except.ok.inj hok
          exact ⟨hn.symm, hn ▸ hov.1, hn ▸ hov.2⟩
      · rintro ⟨rfl, hlo, hhi⟩
        rw [hmain, if_neg (by push_neg; exact ⟨hlo, hhi⟩)]
    · rw [hmain]
      constructor
      · intro hov
        by_contra hc
        push_neg at hc
        rw [if_neg (by push_neg; exact ⟨hc.1, hc.2⟩)] at hov
        exact absurd hov (by simp)
      · intro hov
        rw [if_pos hov]

theorem c4_price_str_to_ticks_spec_witness :
    (TickTable.mk ⟨5, 2⟩ []).price_str_to_ticks ("AAPL") ("abc") =
      .error (.invalidDecimal ("abc")) :=
  (c4_price_str_to_ticks_spec ⟨⟨5, 2⟩, []⟩).1 ("AAPL") ("abc") (by rfl)
